import Mathlib

/-!
Shallow embedding of the Dota 2 Draft Analyzer core
(`src/app/core/draft_analyzer_core.py`): the `DataManager` loader and the
`AnalysisCore` query engine, together with proofs of the specification
claims.

Modelling conventions:
* Python `dict` (insertion-ordered, unique keys) is an association list
  over `String` keys; assignment to an existing key replaces the value in
  place (keeping the key position), assignment to a fresh key appends.
* A strategy document is a record with a mandatory "strategies" member
  (the code indexes `strategy["strategies"]` unconditionally and the data
  contract fixes this shape) whose two tip fields are optional (the code
  membership-tests `"counter_tips"` / `"general_tips"` before use).
* Python string operations (`lower`, `join`, `in`, `endswith`, `replace`)
  are modelled on the character list of the string, structurally, so that
  all definitions evaluate.
* File input is modelled by a `FileSystem` value assigning each data file
  a parse outcome (missing / malformed / well-formed content); `print`
  diagnostics are collected in a log list.
-/

namespace DraftAnalyzer

/-- Python ordered dictionary with `String` keys, as an association list. -/
abbrev Dict (α : Type) := List (String × α)

/-- Python `d.get(k)` / `k in d`: first binding for a key (keys are unique
by construction, every dictionary below is built with `dictInsert`). -/
def dictLookup : Dict α → String → Option α
  | [], _ => none
  | (k2, v) :: t, k => if k2 = k then some v else dictLookup t k

/-- Python `d[k] = v`: replace in place when the key is present, append a
new binding otherwise. -/
def dictInsert : Dict α → String → α → Dict α
  | [], k, v => [(k, v)]
  | (k2, v2) :: t, k, v =>
    if k2 = k then (k2, v) :: t else (k2, v2) :: dictInsert t k v

/-- Key list of a dictionary, in insertion order (Python iteration order). -/
def dictKeys (d : Dict α) : List String := d.map Prod.fst

/-- Python `str.lower()` (ASCII case folding, which covers every string
the analyzer lowers). -/
def pyLower (s : String) : String := String.mk (s.toList.map Char.toLower)

/-- Helper for substring containment on character lists. -/
def substrAux (sub : List Char) : List Char → Bool
  | [] => sub.isEmpty
  | c :: t => sub.isPrefixOf (c :: t) || substrAux sub t

/-- Python `sub in s` for strings: substring containment. -/
def pyIn (sub s : String) : Bool := substrAux sub.toList s.toList

/-- Python `str.endswith(suffix)`. -/
def pyEndsWith (s suffix : String) : Bool := suffix.toList.isSuffixOf s.toList

/-- Python `sep.join(parts)`. -/
def pyJoin (sep : String) : List String → String
  | [] => ""
  | x :: xs => xs.foldl (fun acc y => acc ++ sep ++ y) x

/-- Helper for Python `str.replace(old, new)`: replaces non-overlapping
occurrences left to right.  The fuel argument is instantiated with the
length of the subject string, which each step strictly decreases, so the
fuel-exhaustion branch is unreachable at the call sites below; the source
only ever calls `replace` with the non-empty pattern `".json"`, which the
guard reflects. -/
def replaceAux (old new : List Char) : Nat → List Char → List Char
  | _, [] => []
  | 0, l => l
  | fuel + 1, c :: t =>
    if old.isPrefixOf (c :: t) && !old.isEmpty then
      new ++ replaceAux old new fuel (List.drop (old.length - 1) t)
    else c :: replaceAux old new fuel t

/-- Python `s.replace(old, new)`. -/
def pyReplace (s old new : String) : String :=
  String.mk (replaceAux old.toList new.toList s.toList.length s.toList)

/-- Python `os.path.join` for the two-component joins the loader performs. -/
def pathJoin (a b : String) : String := a ++ "/" ++ b

/-- Value stored in `hero_name_map` for one display name:
`{"safe_name": ..., "image_path": ...}` (both keys always present). -/
structure HeroInfo where
  safe_name : String
  image_path : String
deriving DecidableEq, Repr

/-- The nested `"strategies"` object of a strategy document; the two tip
fields are optional (`none` models an absent key). -/
structure Strategies where
  counter_tips : Option (List String)
  general_tips : Option (List String)
deriving DecidableEq, Repr

/-- One per-hero strategy document: a record with the nested
`"strategies"` member holding the tip lists. -/
structure StrategyDoc where
  strategies : Strategies
deriving DecidableEq, Repr

/-- One record of `heroes.json` (`Dict[str, Any]` in the source); the core
logic never reads any field of it, only its count, so it is modelled as a
generic string-keyed record. -/
abbrev HeroRec := List (String × String)

/-- One record of `normalized_heroes.json`; the loader reads the keys
`"name"`, `"safe_name"` (both membership-tested) and `"image_path"`
(accessed with `.get(..., "")`). -/
structure NormEntry where
  name : Option String
  safe_name : Option String
  image_path : Option String
deriving DecidableEq, Repr

/-- State of `DataManager` after `__init__` / `_load_all_data`. -/
structure DataManager where
  data_path : String
  heroes : List HeroRec
  hero_strategies : Dict StrategyDoc
  normalized_heroes : List NormEntry
  hero_name_map : Dict HeroInfo
deriving DecidableEq

/-- The fixed catalog `COUNTER_ITEMS` of the source, in source order. -/
def COUNTER_ITEMS : List String := [
  "Black King Bar",
  "Linken\x27s Sphere",
  "Lotus Orb",
  "Manta Style",
  "Aeon Disk",
  "Guardian Greaves",
  "Satanic",
  "Heaven\x27s Halberd",
  "Butterfly",
  "Solar Crest",
  "Scythe of Vyse",
  "Abyssal Blade",
  "Gleipnir",
  "Rod of Atos",
  "Orchid Malevolence",
  "Bloodthorn",
  "Diffusal Blade",
  "Gem of True Sight",
  "Sentry Ward",
  "Dust of Appearance",
  "Monkey King Bar",
  "Blade Mail",
  "Ghost Scepter",
  "Eul\x27s Scepter of Divinity",
  "Pipe of Insight",
  "Eternal Shroud",
  "Assault Cuirass",
  "Crimson Guard",
  "Shiva\x27s Guard",
  "Eye of Skadi",
  "Silver Edge",
  "Khanda",
  "Nullifier",
  "Spirit Vessel",
  "Force Staff",
  "Hurricane Pike",
  "Blink Dagger",
  "Dagon",
  "Hand of Midas"]

/-- Inner body of the item loop of `get_item_suggestions`, for one already
matched item: create the key with an empty list if absent, then append the
hero name unless it is already listed. -/
def addSuggestion (d : Dict (List String)) (item hero_name : String) :
    Dict (List String) :=
  let d1 := if (dictLookup d item).isNone then dictInsert d item [] else d
  let cur := (dictLookup d1 item).getD []
  if hero_name ∈ cur then d1 else dictInsert d1 item (cur ++ [hero_name])

/-- One iteration of `for item in COUNTER_ITEMS` in `get_item_suggestions`:
test the lower-cased item name against the hero's counter-tip blob. -/
def itemStep (hero_name counter_tips_text : String)
    (d : Dict (List String)) (item : String) : Dict (List String) :=
  if pyIn (pyLower item) counter_tips_text then addSuggestion d item hero_name
  else d

/-- One iteration of `for hero_name in enemy_heroes` in
`get_item_suggestions`: resolve the display name, fetch the strategy
document, require the `counter_tips` field, then scan the catalog. -/
def processHero (dm : DataManager) (d : Dict (List String))
    (hero_name : String) : Dict (List String) :=
  match dictLookup dm.hero_name_map hero_name with
  | none => d
  | some hero_info =>
    match dictLookup dm.hero_strategies hero_info.safe_name with
    | none => d
    | some strategy =>
      match strategy.strategies.counter_tips with
      | none => d
      | some tips =>
        COUNTER_ITEMS.foldl
          (itemStep hero_name (pyLower (pyJoin " " tips))) d

/-- `AnalysisCore.get_item_suggestions`. -/
def get_item_suggestions (dm : DataManager) (enemy_heroes : List String) :
    Dict (List String) :=
  enemy_heroes.foldl (processHero dm) []

/-- `AnalysisCore.get_strategic_tips`. -/
def get_strategic_tips (dm : DataManager) (your_hero : String) :
    List String :=
  match dictLookup dm.hero_name_map your_hero with
  | none => []
  | some hero_info =>
    match dictLookup dm.hero_strategies hero_info.safe_name with
    | some strategy =>
      match strategy.strategies.general_tips with
      | some tips => tips
      | none => []
    | none => []

/-- One iteration of the loop of `get_counter_tips`. -/
def counterTipStep (dm : DataManager) (d : Dict (List String))
    (hero_name : String) : Dict (List String) :=
  match dictLookup dm.hero_name_map hero_name with
  | none => d
  | some hero_info =>
    match dictLookup dm.hero_strategies hero_info.safe_name with
    | none => d
    | some strategy =>
      match strategy.strategies.counter_tips with
      | none => d
      | some tips => dictInsert d hero_name tips

/-- `AnalysisCore.get_counter_tips`. -/
def get_counter_tips (dm : DataManager) (enemy_heroes : List String) :
    Dict (List String) :=
  enemy_heroes.foldl (counterTipStep dm) []

/-- Parse outcome of one data file.  `_load_json` catches only
`FileNotFoundError` (`missing`) and `json.JSONDecodeError` (`malformed`,
for a file that decodes as text but is not valid JSON); a file whose
bytes are not valid UTF-8 makes `f.read()` raise `UnicodeDecodeError`,
which is NOT caught and propagates out of loading — `undecodable` models
that case.  `wellFormed` carries the parsed value of a valid file. -/
inductive FileContent (α : Type) where
  | missing
  | malformed
  | undecodable
  | wellFormed (content : α)
deriving DecidableEq

/-- Parsed value of one strategy file: either a truthy document (a record
with the nested strategies member) or a valid JSON value that is falsy in
Python (`{}`, `[]`, `0`, `null`, `false`, `""`), which the loader's
`if strategy_data:` guard refuses to insert. -/
inductive StrategyJson where
  | falsy
  | doc (d : StrategyDoc)
deriving DecidableEq

/-- The exception `_load_json` does not catch. -/
inductive PyError where
  | unicodeDecodeError (path : String)
deriving DecidableEq

/-- Outcome of running a fallible piece of Python: a value, or an
uncaught exception propagating to the caller. -/
inductive LoadResult (α : Type) where
  | ok (value : α)
  | raised (e : PyError)
deriving DecidableEq

/-- The file inputs the loader touches: the two roster files and the
`howdoiplay_json` strategy directory (`none` when the directory does not
exist, otherwise its listing: file name and parse outcome per file). -/
structure FileSystem where
  heroes_json : FileContent (List HeroRec)
  normalized_heroes_json : FileContent (List NormEntry)
  howdoiplay_dir : Option (List (String × FileContent StrategyJson))
deriving DecidableEq

/-- `DataManager._load_json`: returns the parsed content, or `none` after
printing a diagnostic for a missing or JSON-malformed file; a file whose
bytes do not decode raises `UnicodeDecodeError`, which this function does
not catch. -/
def load_json (data_path file_name : String) (c : FileContent α) :
    LoadResult (Option α × List String) :=
  match c with
  | .missing =>
    .ok (none, ["Error: " ++ pathJoin data_path file_name ++ " not found."])
  | .malformed =>
    .ok (none, ["Error: Could not decode JSON from " ++
            pathJoin data_path file_name ++ "."])
  | .undecodable =>
    .raised (.unicodeDecodeError (pathJoin data_path file_name))
  | .wellFormed a => .ok (some a, [])

/-- The dictionary comprehension building `hero_name_map`: entries that
carry both a `"name"` and a `"safe_name"`, later entries overwriting
earlier ones with the same display name. -/
def build_hero_name_map (normalized_heroes : List NormEntry) :
    Dict HeroInfo :=
  normalized_heroes.foldl (fun m hero =>
    match hero.name, hero.safe_name with
    | some n, some s =>
      dictInsert m n { safe_name := s, image_path := hero.image_path.getD "" }
    | _, _ => m) []

/-- The strategy-directory loop of `_load_all_data`: recognized files end
in `".json"`, the key is `filename.replace(".json", "")`, and parsed
truthy content is inserted while falsy content is skipped by the
`if strategy_data:` guard.  An `UnicodeDecodeError` raised by
`_load_json` inside the loop propagates and aborts the remaining files
and the whole load. -/
def loadStrategiesList (data_path : String)
    (acc : Dict StrategyDoc × List String) :
    List (String × FileContent StrategyJson) →
      LoadResult (Dict StrategyDoc × List String)
  | [] => .ok acc
  | file :: rest =>
    if pyEndsWith file.1 ".json" then
      match load_json data_path (pathJoin "howdoiplay_json" file.1)
          file.2 with
      | .raised e => .raised e
      | .ok r =>
        match r.1 with
        | some (.doc strategy_data) =>
          loadStrategiesList data_path
            (dictInsert acc.1 (pyReplace file.1 ".json" "") strategy_data,
             acc.2 ++ r.2) rest
        | some .falsy => loadStrategiesList data_path (acc.1, acc.2 ++ r.2) rest
        | none => loadStrategiesList data_path (acc.1, acc.2 ++ r.2) rest
    else loadStrategiesList data_path acc rest

/-- The `os.path.isdir` guard around the strategy loop: no directory
means the strategy mapping stays empty. -/
def loadStrategiesDir (data_path : String)
    (dir : Option (List (String × FileContent StrategyJson))) :
    LoadResult (Dict StrategyDoc × List String) :=
  match dir with
  | none => .ok ([], [])
  | some files => loadStrategiesList data_path ([], []) files

/-- `DataManager._load_all_data` (and hence `DataManager.__init__`):
builds the full `DataManager` state from the file inputs and collects
every printed diagnostic; an uncaught `UnicodeDecodeError` from any
`_load_json` call aborts the whole load. -/
def load_all_data (data_path : String) (fs : FileSystem) :
    LoadResult (DataManager × List String) :=
  match load_json data_path "heroes.json" fs.heroes_json with
  | .raised e => .raised e
  | .ok r1 =>
    match load_json data_path "normalized_heroes.json"
        fs.normalized_heroes_json with
    | .raised e => .raised e
    | .ok r2 =>
      match loadStrategiesDir data_path fs.howdoiplay_dir with
      | .raised e => .raised e
      | .ok strat =>
        .ok ({ data_path := data_path
               heroes := r1.1.getD []
               hero_strategies := strat.1
               normalized_heroes := r2.1.getD []
               hero_name_map := build_hero_name_map (r2.1.getD []) },
          ["Loading game data..."] ++ r1.2 ++ r2.2 ++ strat.2 ++
            ["Loaded " ++ toString (r1.1.getD []).length ++ " heroes.",
             "Loaded normalized data for " ++
               toString (r2.1.getD []).length ++ " heroes.",
             "Loaded strategies for " ++ toString strat.1.length ++
               " heroes."])

/-- Strategy mapping of a completed load (the empty mapping when loading
raised); a projection used only to state concrete evaluations. -/
def loadedStrategies (r : LoadResult (DataManager × List String)) :
    Dict StrategyDoc :=
  match r with
  | .ok v => v.1.hero_strategies
  | .raised _ => []

/-- Whether loading ran to completion without an uncaught exception. -/
def loadCompleted (r : LoadResult (DataManager × List String)) : Bool :=
  match r with
  | .ok _ => true
  | .raised _ => false

/-- Stateful rendering of `get_item_suggestions`: the method reads
`self.data_manager` and assigns no attribute of it, so the post-state is
the pre-state. -/
def get_item_suggestions_run (dm : DataManager)
    (enemy_heroes : List String) : Dict (List String) × DataManager :=
  (get_item_suggestions dm enemy_heroes, dm)

/-- Stateful rendering of `get_strategic_tips` (no attribute assignment). -/
def get_strategic_tips_run (dm : DataManager) (your_hero : String) :
    List String × DataManager :=
  (get_strategic_tips dm your_hero, dm)

/-- Stateful rendering of `get_counter_tips` (no attribute assignment). -/
def get_counter_tips_run (dm : DataManager) (enemy_heroes : List String) :
    Dict (List String) × DataManager :=
  (get_counter_tips dm enemy_heroes, dm)

/-- Value stored under a key, with the empty list for an absent key (used
to state membership and multiplicity properties of the output mapping). -/
def valueAt (d : Dict (List String)) (k : String) : List String :=
  (dictLookup d k).getD []

/-- Number of occurrences of a string in a list. -/
def countOcc (x : String) : List String → Nat
  | [] => 0
  | y :: t => (if y = x then 1 else 0) + countOcc x t

/-- Index of the first occurrence of a string in a list (length of the
list when absent); used to speak about catalog order. -/
def listIdx (x : String) : List String → Nat
  | [] => 0
  | y :: t => if y = x then 0 else listIdx x t + 1

/-- The lower-cased counter-tip blob `get_item_suggestions` builds for one
opponent: `none` exactly when the name is unresolvable, the strategy
document is absent, or it lacks the `counter_tips` field. -/
def heroBlob (dm : DataManager) (hero_name : String) : Option String :=
  match dictLookup dm.hero_name_map hero_name with
  | none => none
  | some hero_info =>
    match dictLookup dm.hero_strategies hero_info.safe_name with
    | none => none
    | some strategy =>
      match strategy.strategies.counter_tips with
      | none => none
      | some tips => some (pyLower (pyJoin " " tips))

/-- The opponent named `hero` contributes the catalog entry `item`: the
name resolves to a document with counter tips whose lower-cased blob
contains the lower-cased item name. -/
def HeroCounters (dm : DataManager) (hero item : String) : Prop :=
  ∃ blob, heroBlob dm hero = some blob ∧ item ∈ COUNTER_ITEMS ∧
    pyIn (pyLower item) blob = true

instance (dm : DataManager) (hero item : String) :
    Decidable (HeroCounters dm hero item) := by
  unfold HeroCounters
  cases heroBlob dm hero with
  | none =>
    exact isFalse (by rintro ⟨b, hb, _, _⟩; exact Option.noConfusion hb)
  | some blob =>
    refine decidable_of_iff
      (item ∈ COUNTER_ITEMS ∧ pyIn (pyLower item) blob = true) ?_
    constructor
    · rintro ⟨hm, hp⟩
      exact ⟨blob, rfl, hm, hp⟩
    · rintro ⟨b, hb, hm, hp⟩
      obtain rfl := Option.some.inj hb
      exact ⟨hm, hp⟩

/-- Catalog items matched by one opponent, in catalog order. -/
def heroCatalogMatches (dm : DataManager) (hero_name : String) :
    List String :=
  match heroBlob dm hero_name with
  | none => []
  | some blob => COUNTER_ITEMS.filter (fun i => pyIn (pyLower i) blob)

/-- First-seen order specification of the key sequence of
`get_item_suggestions`: scan opponents in input order, the catalog in
catalog order for each, and append each item when first matched. -/
def firstSeenKeys (dm : DataManager) (enemy_heroes : List String) :
    List String :=
  ((enemy_heroes.map (heroCatalogMatches dm)).flatten).foldl
    (fun a i => if i ∈ a then a else a ++ [i]) []

/-- Fixture: two opponents whose counter tips mention one catalog item
each, the first opponent matching an item that sits later in the catalog
than the item of the second opponent. -/
def dmAB : DataManager :=
  { data_path := "data"
    heroes := []
    hero_strategies :=
      [("a", ⟨⟨some ["buy butterfly"], none⟩⟩),
       ("b", ⟨⟨some ["buy black king bar"], none⟩⟩)]
    normalized_heroes := []
    hero_name_map := [("A", ⟨"a", ""⟩), ("B", ⟨"b", ""⟩)] }

/-- Fixture following the end-to-end examples of the specification:
`hero_a` has the Black King Bar counter tip, `hero_b` has two general
tips and no counter tips. -/
def dmSpec : DataManager :=
  { data_path := "data"
    heroes := []
    hero_strategies :=
      [("hero_a",
        ⟨⟨some ["Buy a Black King Bar to counter Hero A\x27s magic burst"],
          none⟩⟩),
       ("hero_b", ⟨⟨none, some ["Farm efficiently", "Ward the jungle"]⟩⟩)]
    normalized_heroes := []
    hero_name_map :=
      [("Hero A", ⟨"hero_a", ""⟩), ("Hero B", ⟨"hero_b", ""⟩)] }

/-- Fixture: every data file missing and no strategy directory. -/
def fsEmpty : FileSystem :=
  { heroes_json := .missing
    normalized_heroes_json := .missing
    howdoiplay_dir := none }

/-- Fixture: the `DataManager` produced by loading `fsEmpty`. -/
def dmEmpty : DataManager :=
  { data_path := "data"
    heroes := []
    hero_strategies := []
    normalized_heroes := []
    hero_name_map := [] }

/-- Fixture: the diagnostics printed while loading `fsEmpty`. -/
def logEmpty : List String :=
  ["Loading game data...",
   "Error: data/heroes.json not found.",
   "Error: data/normalized_heroes.json not found.",
   "Loaded 0 heroes.",
   "Loaded normalized data for 0 heroes.",
   "Loaded strategies for 0 heroes."]

/-- Fixture: a roster file whose bytes are not valid UTF-8. -/
def fsUndec : FileSystem :=
  { heroes_json := .undecodable
    normalized_heroes_json := .wellFormed []
    howdoiplay_dir := none }

/-- Fixture strategy document stored by the loader fixtures. -/
def docT : StrategyDoc := ⟨⟨some ["tip"], none⟩⟩

/-- Fixture: a strategy directory holding a well-formed file whose name
contains the extension string twice, one JSON-malformed file and one
well-formed file whose parsed value is falsy (such as `{}`). -/
def fsStrat : FileSystem :=
  { heroes_json := .wellFormed []
    normalized_heroes_json := .wellFormed []
    howdoiplay_dir :=
      some [("a.json.json", .wellFormed (.doc docT)),
            ("bad.json", .malformed),
            ("empty.json", .wellFormed .falsy)] }

/-- Fixture: the `DataManager` produced by loading `fsStrat`. -/
def dmStrat : DataManager :=
  { data_path := "data"
    heroes := []
    hero_strategies := [("a", docT)]
    normalized_heroes := []
    hero_name_map := [] }

/-- Fixture: the diagnostics printed while loading `fsStrat`. -/
def logStrat : List String :=
  ["Loading game data...",
   "Error: Could not decode JSON from data/howdoiplay_json/bad.json.",
   "Loaded 0 heroes.",
   "Loaded normalized data for 0 heroes.",
   "Loaded strategies for 1 heroes."]

/-- Fixture: a strategy directory holding one recognized file whose bytes
are not valid UTF-8. -/
def fsFatal : FileSystem :=
  { heroes_json := .wellFormed []
    normalized_heroes_json := .wellFormed []
    howdoiplay_dir := some [("u.json", .undecodable)] }

theorem dictLookup_insert_self (d : Dict α) (k : String) (v : α) :
    dictLookup (dictInsert d k v) k = some v := by
  induction d with
  | nil => simp [dictInsert, dictLookup]
  | cons p t ih =>
    obtain ⟨k2, v2⟩ := p
    by_cases h : k2 = k
    · simp [dictInsert, h, dictLookup]
    · simp [dictInsert, h, dictLookup, ih]

theorem dictLookup_insert_ne (d : Dict α) (k k' : String) (v : α)
    (h : k' ≠ k) :
    dictLookup (dictInsert d k v) k' = dictLookup d k' := by
  induction d with
  | nil =>
    simp only [dictInsert, dictLookup]
    rw [if_neg (fun hx : k = k' => h hx.symm)]
  | cons p t ih =>
    obtain ⟨k2, v2⟩ := p
    by_cases h2 : k2 = k
    · subst h2
      have hne2 : ¬ k2 = k' := fun hx => h hx.symm
      simp [dictInsert, dictLookup, hne2]
    · by_cases h3 : k2 = k'
      · simp [dictInsert, h2, dictLookup, h3, h]
      · simp [dictInsert, h2, dictLookup, h3, ih]

theorem dictLookup_eq_none_iff (d : Dict α) (k : String) :
    dictLookup d k = none ↔ k ∉ dictKeys d := by
  induction d with
  | nil => simp [dictLookup, dictKeys]
  | cons p t ih =>
    obtain ⟨k2, v2⟩ := p
    by_cases h : k2 = k
    · simp [dictLookup, h, dictKeys]
    · have hne : ¬ k = k2 := fun hx => h hx.symm
      simp [dictLookup, h, dictKeys, ih, hne, not_or]

theorem dictLookup_isSome_iff (d : Dict α) (k : String) :
    (dictLookup d k).isSome = true ↔ k ∈ dictKeys d := by
  have h := dictLookup_eq_none_iff d k
  cases hd : dictLookup d k with
  | none =>
    rw [hd] at h
    simp [h.mp rfl]
  | some v =>
    rw [hd] at h
    simp only [reduceCtorEq, false_iff, not_not] at h
    simp [h]

theorem dictKeys_insert (d : Dict α) (k : String) (v : α) :
    dictKeys (dictInsert d k v) =
      if k ∈ dictKeys d then dictKeys d else dictKeys d ++ [k] := by
  induction d with
  | nil => simp [dictInsert, dictKeys]
  | cons p t ih =>
    obtain ⟨k2, v2⟩ := p
    by_cases h : k2 = k
    · simp [dictInsert, h, dictKeys]
    · have hne : ¬ k = k2 := fun hx => h hx.symm
      simp only [dictInsert, if_neg h]
      simp only [dictKeys, List.map_cons] at ih ⊢
      rw [ih]
      by_cases h2 : k ∈ List.map Prod.fst t
      · rw [if_pos h2, if_pos (by simp [List.mem_cons, h2])]
      · rw [if_neg h2, if_neg (by simp [List.mem_cons, hne, h2]),
          List.cons_append]

theorem dictInsert_insert (d : Dict α) (k : String) (v1 v2 : α) :
    dictInsert (dictInsert d k v1) k v2 = dictInsert d k v2 := by
  induction d with
  | nil => simp [dictInsert]
  | cons p t ih =>
    obtain ⟨k2, v2'⟩ := p
    by_cases h : k2 = k
    · simp [dictInsert, h]
    · simp [dictInsert, h, ih]

theorem valueAt_nil (k : String) : valueAt [] k = [] := rfl

theorem addSuggestion_lookup_self (d : Dict (List String))
    (item h : String) :
    dictLookup (addSuggestion d item h) item =
      some (if h ∈ valueAt d item then valueAt d item
            else valueAt d item ++ [h]) := by
  unfold addSuggestion valueAt
  cases hd : dictLookup d item with
  | none =>
    simp [hd, dictLookup_insert_self, dictInsert_insert]
  | some cur =>
    by_cases hc : h ∈ cur <;> simp [hd, hc, dictLookup_insert_self]

theorem addSuggestion_lookup_ne (d : Dict (List String))
    (item h i : String) (hne : i ≠ item) :
    dictLookup (addSuggestion d item h) i = dictLookup d i := by
  unfold addSuggestion
  cases hd : dictLookup d item with
  | none =>
    simp only [hd, Option.isNone_none, if_pos, dictLookup_insert_self,
      Option.getD_some, List.not_mem_nil, if_false, List.nil_append]
    rw [dictInsert_insert, dictLookup_insert_ne _ _ _ _ hne]
  | some cur =>
    by_cases hc : h ∈ cur <;>
      simp [hd, hc, dictLookup_insert_ne _ _ _ _ hne]

theorem valueAt_addSuggestion_self (d : Dict (List String))
    (item h : String) :
    valueAt (addSuggestion d item h) item =
      if h ∈ valueAt d item then valueAt d item
      else valueAt d item ++ [h] := by
  unfold valueAt
  rw [addSuggestion_lookup_self]
  rfl

theorem valueAt_addSuggestion_ne (d : Dict (List String))
    (item h i : String) (hne : i ≠ item) :
    valueAt (addSuggestion d item h) i = valueAt d i := by
  unfold valueAt
  rw [addSuggestion_lookup_ne _ _ _ _ hne]

theorem addSuggestion_keys (d : Dict (List String)) (item h : String) :
    dictKeys (addSuggestion d item h) =
      if item ∈ dictKeys d then dictKeys d else dictKeys d ++ [item] := by
  unfold addSuggestion
  cases hd : dictLookup d item with
  | none =>
    have hmem : item ∉ dictKeys d := (dictLookup_eq_none_iff d item).mp hd
    simp only [hd, Option.isNone_none, if_pos, dictLookup_insert_self,
      Option.getD_some, List.not_mem_nil, if_false, List.nil_append]
    rw [dictInsert_insert, dictKeys_insert]
  | some cur =>
    have hmem : item ∈ dictKeys d := by
      rw [← dictLookup_isSome_iff, hd]; rfl
    by_cases hc : h ∈ cur
    · simp [hd, hc, hmem]
    · simp only [hd, Option.isNone_some, Bool.false_eq_true, if_false,
        Option.getD_some, hc]
      rw [dictKeys_insert]

theorem addSuggestion_id (d : Dict (List String)) (item h : String)
    (hmem : h ∈ valueAt d item) : addSuggestion d item h = d := by
  unfold addSuggestion
  cases hd : dictLookup d item with
  | none =>
    rw [valueAt, hd] at hmem
    simp at hmem
  | some cur =>
    rw [valueAt, hd] at hmem
    simp only [Option.getD_some] at hmem
    simp [hd, hmem]

theorem mem_ite_append_self (h : String) (v : List String) :
    h ∈ (if h ∈ v then v else v ++ [h]) := by
  by_cases hc : h ∈ v <;> simp [hc]

theorem countOcc_eq_zero_iff (x : String) (l : List String) :
    countOcc x l = 0 ↔ x ∉ l := by
  induction l with
  | nil => simp [countOcc]
  | cons y t ih =>
    by_cases h : y = x
    · simp [countOcc, h]
    · have hne : ¬ x = y := fun hx => h hx.symm
      simp [countOcc, h, ih, hne, not_or]

theorem countOcc_append_one (x y : String) (l : List String) :
    countOcc x (l ++ [y]) =
      countOcc x l + (if y = x then 1 else 0) := by
  induction l with
  | nil => simp [countOcc]
  | cons z t ih => simp [countOcc, ih]; omega

theorem itemStep_valueAt_ne (h blob : String) (d : Dict (List String))
    (j i : String) (hne : i ≠ j) :
    valueAt (itemStep h blob d j) i = valueAt d i := by
  unfold itemStep
  by_cases hm : pyIn (pyLower j) blob = true
  · simp [hm, valueAt_addSuggestion_ne _ _ _ _ hne]
  · simp [hm]

theorem itemStep_lookup_ne (h blob : String) (d : Dict (List String))
    (j i : String) (hne : i ≠ j) :
    dictLookup (itemStep h blob d j) i = dictLookup d i := by
  unfold itemStep
  by_cases hm : pyIn (pyLower j) blob = true
  · simp [hm, addSuggestion_lookup_ne _ _ _ _ hne]
  · simp [hm]

theorem innerFold_valueAt (h blob : String) (items : List String) :
    ∀ (d : Dict (List String)) (i : String),
      valueAt (items.foldl (itemStep h blob) d) i =
        if i ∈ items ∧ pyIn (pyLower i) blob = true then
          (if h ∈ valueAt d i then valueAt d i else valueAt d i ++ [h])
        else valueAt d i := by
  induction items with
  | nil =>
    intro d i
    simp
  | cons j items ih =>
    intro d i
    rw [List.foldl_cons, ih]
    by_cases hji : j = i
    · subst hji
      by_cases hm : pyIn (pyLower j) blob = true
      · have hstep : itemStep h blob d j = addSuggestion d j h := by
          simp [itemStep, hm]
        rw [hstep, valueAt_addSuggestion_self]
        have hh := mem_ite_append_self h (valueAt d j)
        by_cases hin : j ∈ items
        · simp [hin, hm, hh]
        · simp [hin, hm, hh]
      · have hstep : itemStep h blob d j = d := by simp [itemStep, hm]
        rw [hstep]
        simp [hm]
    · have hij : i ≠ j := fun hx => hji hx.symm
      rw [itemStep_valueAt_ne h blob d j i hij]
      simp only [List.mem_cons, hij, false_or]

theorem innerFold_lookup_frame (h blob : String) (items : List String) :
    ∀ (d : Dict (List String)) (i : String),
      (i ∉ items ∨ pyIn (pyLower i) blob = false) →
      dictLookup (items.foldl (itemStep h blob) d) i = dictLookup d i := by
  induction items with
  | nil => intro d i _; rfl
  | cons j items ih =>
    intro d i hcond
    rw [List.foldl_cons]
    have htail : i ∉ items ∨ pyIn (pyLower i) blob = false := by
      rcases hcond with hc | hc
      · exact Or.inl (fun hx => hc (List.mem_cons_of_mem _ hx))
      · exact Or.inr hc
    rw [ih _ _ htail]
    by_cases hji : j = i
    · subst hji
      rcases hcond with hc | hc
      · exact absurd (List.mem_cons_self _ _) hc
      · simp [itemStep, hc]
    · exact itemStep_lookup_ne h blob d j i (fun hx => hji hx.symm)

theorem innerFold_keys (h blob : String) (items : List String) :
    ∀ d, dictKeys (items.foldl (itemStep h blob) d) =
      items.foldl
        (fun ks i =>
          if pyIn (pyLower i) blob = true ∧ i ∉ ks then ks ++ [i] else ks)
        (dictKeys d) := by
  induction items with
  | nil => intro d; rfl
  | cons j items ih =>
    intro d
    rw [List.foldl_cons, List.foldl_cons, ih]
    congr 1
    by_cases hm : pyIn (pyLower j) blob = true
    · have hstep : itemStep h blob d j = addSuggestion d j h := by
        simp [itemStep, hm]
      rw [hstep, addSuggestion_keys]
      by_cases hk : j ∈ dictKeys d
      · simp [hk, hm]
      · simp [hk, hm]
    · have hstep : itemStep h blob d j = d := by simp [itemStep, hm]
      rw [hstep]
      simp [hm]

theorem keysFold_filter (blob : String) (items : List String) :
    ∀ ks, items.foldl
        (fun ks i =>
          if pyIn (pyLower i) blob = true ∧ i ∉ ks then ks ++ [i] else ks)
        ks =
      (items.filter (fun i => pyIn (pyLower i) blob)).foldl
        (fun a i => if i ∈ a then a else a ++ [i]) ks := by
  induction items with
  | nil => intro ks; rfl
  | cons j items ih =>
    intro ks
    by_cases hm : pyIn (pyLower j) blob = true
    · rw [List.foldl_cons]
      have hf : List.filter (fun i => pyIn (pyLower i) blob) (j :: items) =
          j :: List.filter (fun i => pyIn (pyLower i) blob) items := by
        simp [List.filter_cons, hm]
      rw [hf, List.foldl_cons, ih]
      congr 1
      by_cases hk : j ∈ ks
      · simp [hk, hm]
      · simp [hk, hm]
    · rw [List.foldl_cons]
      have hf : List.filter (fun i => pyIn (pyLower i) blob) (j :: items) =
          List.filter (fun i => pyIn (pyLower i) blob) items := by
        simp [List.filter_cons, hm]
      rw [hf, ← ih]
      congr 1
      simp [hm]

theorem addSuggestion_nonempty (d : Dict (List String)) (item h : String)
    (hinv : ∀ i l, dictLookup d i = some l → l ≠ []) :
    ∀ i l, dictLookup (addSuggestion d item h) i = some l → l ≠ [] := by
  intro i l hl
  by_cases hi : i = item
  · subst hi
    rw [addSuggestion_lookup_self] at hl
    have hl2 := Option.some.inj hl
    by_cases hmem : h ∈ valueAt d i
    · rw [if_pos hmem] at hl2
      subst hl2
      exact List.ne_nil_of_mem hmem
    · rw [if_neg hmem] at hl2
      subst hl2
      simp
  · rw [addSuggestion_lookup_ne _ _ _ _ hi] at hl
    exact hinv i l hl

theorem innerFold_nonempty (h blob : String) (items : List String) :
    ∀ d, (∀ i l, dictLookup d i = some l → l ≠ []) →
      ∀ i l, dictLookup (items.foldl (itemStep h blob) d) i = some l →
        l ≠ [] := by
  induction items with
  | nil => intro d hinv; exact hinv
  | cons j items ih =>
    intro d hinv
    rw [List.foldl_cons]
    refine ih _ ?_
    by_cases hm : pyIn (pyLower j) blob = true
    · have hstep : itemStep h blob d j = addSuggestion d j h := by
        simp [itemStep, hm]
      rw [hstep]
      exact addSuggestion_nonempty d j h hinv
    · have hstep : itemStep h blob d j = d := by simp [itemStep, hm]
      rw [hstep]
      exact hinv

theorem innerFold_id (h blob : String) (items : List String) :
    ∀ d, (∀ i, i ∈ items → pyIn (pyLower i) blob = true → h ∈ valueAt d i) →
      items.foldl (itemStep h blob) d = d := by
  induction items with
  | nil => intro d _; rfl
  | cons j items ih =>
    intro d hcond
    rw [List.foldl_cons]
    have hstep : itemStep h blob d j = d := by
      by_cases hm : pyIn (pyLower j) blob = true
      · simp [itemStep, hm,
          addSuggestion_id d j h (hcond j (List.mem_cons_self _ _) hm)]
      · simp [itemStep, hm]
    rw [hstep]
    exact ih d (fun i hi hip => hcond i (List.mem_cons_of_mem _ hi) hip)

theorem dictLookup_insert_isSome (d : Dict α) (k k' : String) (v : α) :
    (dictLookup (dictInsert d k v) k').isSome = true ↔
      k' = k ∨ (dictLookup d k').isSome = true := by
  by_cases h : k' = k
  · subst h
    simp [dictLookup_insert_self]
  · rw [dictLookup_insert_ne _ _ _ _ h]
    simp [h]

theorem mem_ite_append_iff (x h : String) (v : List String) :
    x ∈ (if h ∈ v then v else v ++ [h]) ↔ x ∈ v ∨ x = h := by
  by_cases hc : h ∈ v
  · rw [if_pos hc]
    constructor
    · exact Or.inl
    · rintro (hv | rfl)
      · exact hv
      · exact hc
  · rw [if_neg hc]
    simp [List.mem_append]

theorem heroBlob_none_of_unknown (dm : DataManager) (name : String)
    (h : dictLookup dm.hero_name_map name = none) :
    heroBlob dm name = none := by
  simp [heroBlob, h]

theorem processHero_of_blob_none (dm : DataManager)
    (d : Dict (List String)) (hn : String) (hb : heroBlob dm hn = none) :
    processHero dm d hn = d := by
  unfold heroBlob at hb
  cases h1 : dictLookup dm.hero_name_map hn with
  | none => simp [processHero, h1]
  | some info =>
    simp only [h1] at hb
    cases h2 : dictLookup dm.hero_strategies info.safe_name with
    | none => simp [processHero, h1, h2]
    | some strat =>
      simp only [h2] at hb
      cases h3 : strat.strategies.counter_tips with
      | none => simp [processHero, h1, h2, h3]
      | some tips =>
        simp only [h3] at hb
        exact Option.noConfusion hb

theorem processHero_of_blob_some (dm : DataManager)
    (d : Dict (List String)) (hn blob : String)
    (hb : heroBlob dm hn = some blob) :
    processHero dm d hn = COUNTER_ITEMS.foldl (itemStep hn blob) d := by
  unfold heroBlob at hb
  cases h1 : dictLookup dm.hero_name_map hn with
  | none =>
    simp only [h1] at hb
    exact Option.noConfusion hb
  | some info =>
    simp only [h1] at hb
    cases h2 : dictLookup dm.hero_strategies info.safe_name with
    | none =>
      simp only [h2] at hb
      exact Option.noConfusion hb
    | some strat =>
      simp only [h2] at hb
      cases h3 : strat.strategies.counter_tips with
      | none =>
        simp only [h3] at hb
        exact Option.noConfusion hb
      | some tips =>
        simp only [h3, Option.some.injEq] at hb
        simp [processHero, h1, h2, h3, hb]

theorem HeroCounters_iff (dm : DataManager) (hero item blob : String)
    (h : heroBlob dm hero = some blob) :
    HeroCounters dm hero item ↔
      item ∈ COUNTER_ITEMS ∧ pyIn (pyLower item) blob = true := by
  unfold HeroCounters
  constructor
  · rintro ⟨b, hb, hm, hp⟩
    rw [h] at hb
    obtain rfl := Option.some.inj hb
    exact ⟨hm, hp⟩
  · rintro ⟨hm, hp⟩
    exact ⟨blob, h, hm, hp⟩

theorem HeroCounters_none (dm : DataManager) (hero item : String)
    (h : heroBlob dm hero = none) : ¬ HeroCounters dm hero item := by
  rintro ⟨b, hb, _, _⟩
  rw [h] at hb
  exact Option.noConfusion hb

theorem outerFold_mem (dm : DataManager) (enemies : List String) :
    ∀ (d : Dict (List String)) (hero item : String),
      hero ∈ valueAt (enemies.foldl (processHero dm) d) item ↔
        hero ∈ valueAt d item ∨
          (hero ∈ enemies ∧ HeroCounters dm hero item) := by
  induction enemies with
  | nil =>
    intro d hero item
    simp
  | cons hn enemies ih =>
    intro d hero item
    rw [List.foldl_cons, ih]
    cases hb : heroBlob dm hn with
    | none =>
      rw [processHero_of_blob_none dm d hn hb]
      constructor
      · rintro (hv | ⟨hm, hc⟩)
        · exact Or.inl hv
        · exact Or.inr ⟨List.mem_cons_of_mem _ hm, hc⟩
      · rintro (hv | ⟨hm, hc⟩)
        · exact Or.inl hv
        · rcases List.mem_cons.mp hm with rfl | hm2
          · exact absurd hc (HeroCounters_none dm hero item hb)
          · exact Or.inr ⟨hm2, hc⟩
    | some blob =>
      rw [processHero_of_blob_some dm d hn blob hb]
      have hC := HeroCounters_iff dm hn item blob hb
      by_cases hcond : item ∈ COUNTER_ITEMS ∧ pyIn (pyLower item) blob = true
      · have hval : valueAt (COUNTER_ITEMS.foldl (itemStep hn blob) d) item =
            if hn ∈ valueAt d item then valueAt d item
            else valueAt d item ++ [hn] := by
          rw [innerFold_valueAt, if_pos hcond]
        rw [hval]
        rw [mem_ite_append_iff]
        constructor
        · rintro ((hv | rfl) | ⟨hm, hc⟩)
          · exact Or.inl hv
          · exact Or.inr ⟨List.mem_cons_self _ _, hC.mpr hcond⟩
          · exact Or.inr ⟨List.mem_cons_of_mem _ hm, hc⟩
        · rintro (hv | ⟨hm, hc⟩)
          · exact Or.inl (Or.inl hv)
          · rcases List.mem_cons.mp hm with rfl | hm2
            · exact Or.inl (Or.inr rfl)
            · exact Or.inr ⟨hm2, hc⟩
      · have hval : valueAt (COUNTER_ITEMS.foldl (itemStep hn blob) d) item =
            valueAt d item := by
          rw [innerFold_valueAt, if_neg hcond]
        rw [hval]
        constructor
        · rintro (hv | ⟨hm, hc⟩)
          · exact Or.inl hv
          · exact Or.inr ⟨List.mem_cons_of_mem _ hm, hc⟩
        · rintro (hv | ⟨hm, hc⟩)
          · exact Or.inl hv
          · rcases List.mem_cons.mp hm with rfl | hm2
            · exact absurd (hC.mp hc) hcond
            · exact Or.inr ⟨hm2, hc⟩

theorem outerFold_count (dm : DataManager) (enemies : List String) :
    ∀ (d : Dict (List String)) (hero item : String),
      countOcc hero (valueAt (enemies.foldl (processHero dm) d) item) =
        if hero ∈ valueAt d item then countOcc hero (valueAt d item)
        else if hero ∈ enemies ∧ HeroCounters dm hero item then 1 else 0 := by
  induction enemies with
  | nil =>
    intro d hero item
    by_cases hv : hero ∈ valueAt d item
    · rw [if_pos hv]
      rfl
    · rw [if_neg hv]
      have h0 : countOcc hero (valueAt d item) = 0 :=
        (countOcc_eq_zero_iff _ _).mpr hv
      simp [h0]
  | cons hn enemies ih =>
    intro d hero item
    rw [List.foldl_cons, ih]
    cases hb : heroBlob dm hn with
    | none =>
      rw [processHero_of_blob_none dm d hn hb]
      have hiff : (hero ∈ enemies ∧ HeroCounters dm hero item) ↔
          (hero ∈ hn :: enemies ∧ HeroCounters dm hero item) := by
        constructor
        · rintro ⟨hm, hc⟩
          exact ⟨List.mem_cons_of_mem _ hm, hc⟩
        · rintro ⟨hm, hc⟩
          rcases List.mem_cons.mp hm with rfl | hm2
          · exact absurd hc (HeroCounters_none dm hero item hb)
          · exact ⟨hm2, hc⟩
      rw [if_congr hiff rfl rfl]
    | some blob =>
      rw [processHero_of_blob_some dm d hn blob hb]
      have hC := HeroCounters_iff dm hn item blob hb
      by_cases hcond : item ∈ COUNTER_ITEMS ∧ pyIn (pyLower item) blob = true
      · have hval : valueAt (COUNTER_ITEMS.foldl (itemStep hn blob) d) item =
            if hn ∈ valueAt d item then valueAt d item
            else valueAt d item ++ [hn] := by
          rw [innerFold_valueAt, if_pos hcond]
        rw [hval]
        by_cases hv : hero ∈ valueAt d item
        · have hv' : hero ∈ (if hn ∈ valueAt d item then valueAt d item
              else valueAt d item ++ [hn]) := by
            by_cases hnv : hn ∈ valueAt d item
            · rw [if_pos hnv]; exact hv
            · rw [if_neg hnv]; exact List.mem_append_left _ hv
          rw [if_pos hv', if_pos hv]
          by_cases hnv : hn ∈ valueAt d item
          · rw [if_pos hnv]
          · rw [if_neg hnv]
            have hne : hn ≠ hero := fun he => hnv (he ▸ hv)
            rw [countOcc_append_one, if_neg hne, Nat.add_zero]
        · rw [if_neg hv]
          by_cases hhn : hero = hn
          · subst hhn
            rw [if_neg hv]
            have hv' : hero ∈ valueAt d item ++ [hero] :=
              List.mem_append_right _ (by simp)
            rw [if_pos hv', countOcc_append_one, if_pos rfl,
              (countOcc_eq_zero_iff _ _).mpr hv]
            have hHC : HeroCounters dm hero item := hC.mpr hcond
            simp [hHC]
          · have hv' : hero ∉ (if hn ∈ valueAt d item then valueAt d item
                else valueAt d item ++ [hn]) := by
              by_cases hnv : hn ∈ valueAt d item
              · rw [if_pos hnv]; exact hv
              · rw [if_neg hnv]
                intro hx
                rcases List.mem_append.mp hx with hx1 | hx2
                · exact hv hx1
                · exact hhn (by simpa using hx2)
            rw [if_neg hv']
            have hiff : (hero ∈ enemies ∧ HeroCounters dm hero item) ↔
                (hero ∈ hn :: enemies ∧ HeroCounters dm hero item) := by
              constructor
              · rintro ⟨hm, hc⟩
                exact ⟨List.mem_cons_of_mem _ hm, hc⟩
              · rintro ⟨hm, hc⟩
                rcases List.mem_cons.mp hm with rfl | hm2
                · exact absurd rfl hhn
                · exact ⟨hm2, hc⟩
            rw [if_congr hiff rfl rfl]
      · have hval : valueAt (COUNTER_ITEMS.foldl (itemStep hn blob) d) item =
            valueAt d item := by
          rw [innerFold_valueAt, if_neg hcond]
        rw [hval]
        by_cases hv : hero ∈ valueAt d item
        · rw [if_pos hv, if_pos hv]
        · rw [if_neg hv, if_neg hv]
          have hiff : (hero ∈ enemies ∧ HeroCounters dm hero item) ↔
              (hero ∈ hn :: enemies ∧ HeroCounters dm hero item) := by
            constructor
            · rintro ⟨hm, hc⟩
              exact ⟨List.mem_cons_of_mem _ hm, hc⟩
            · rintro ⟨hm, hc⟩
              rcases List.mem_cons.mp hm with rfl | hm2
              · exact absurd (hC.mp hc) hcond
              · exact ⟨hm2, hc⟩
          rw [if_congr hiff rfl rfl]

theorem outerFold_lookup_frame (dm : DataManager) (enemies : List String) :
    ∀ (d : Dict (List String)) (item : String),
      (∀ hn, hn ∈ enemies → ¬ HeroCounters dm hn item) →
      dictLookup (enemies.foldl (processHero dm) d) item =
        dictLookup d item := by
  induction enemies with
  | nil => intro d item _; rfl
  | cons hn enemies ih =>
    intro d item hno
    rw [List.foldl_cons,
      ih _ _ (fun h2 hm => hno h2 (List.mem_cons_of_mem _ hm))]
    cases hb : heroBlob dm hn with
    | none => rw [processHero_of_blob_none dm d hn hb]
    | some blob =>
      rw [processHero_of_blob_some dm d hn blob hb]
      apply innerFold_lookup_frame
      have hnc := hno hn (List.mem_cons_self _ _)
      rw [HeroCounters_iff dm hn item blob hb] at hnc
      by_cases hci : item ∈ COUNTER_ITEMS
      · refine Or.inr ?_
        cases hp : pyIn (pyLower item) blob
        · rfl
        · exact absurd ⟨hci, hp⟩ hnc
      · exact Or.inl hci

theorem processHero_nonempty (dm : DataManager) (d : Dict (List String))
    (hn : String)
    (hinv : ∀ i l, dictLookup d i = some l → l ≠ []) :
    ∀ i l, dictLookup (processHero dm d hn) i = some l → l ≠ [] := by
  cases hb : heroBlob dm hn with
  | none =>
    rw [processHero_of_blob_none dm d hn hb]
    exact hinv
  | some blob =>
    rw [processHero_of_blob_some dm d hn blob hb]
    exact innerFold_nonempty hn blob COUNTER_ITEMS d hinv

theorem outerFold_nonempty (dm : DataManager) (enemies : List String) :
    ∀ d, (∀ i l, dictLookup d i = some l → l ≠ []) →
      ∀ i l, dictLookup (enemies.foldl (processHero dm) d) i = some l →
        l ≠ [] := by
  induction enemies with
  | nil => intro d hinv; exact hinv
  | cons hn enemies ih =>
    intro d hinv
    rw [List.foldl_cons]
    exact ih _ (processHero_nonempty dm d hn hinv)

theorem outerFold_keys (dm : DataManager) (enemies : List String) :
    ∀ d, dictKeys (enemies.foldl (processHero dm) d) =
      enemies.foldl
        (fun ks hn => (heroCatalogMatches dm hn).foldl
          (fun a i => if i ∈ a then a else a ++ [i]) ks)
        (dictKeys d) := by
  induction enemies with
  | nil => intro d; rfl
  | cons hn enemies ih =>
    intro d
    rw [List.foldl_cons, List.foldl_cons, ih]
    congr 1
    cases hb : heroBlob dm hn with
    | none =>
      rw [processHero_of_blob_none dm d hn hb]
      simp [heroCatalogMatches, hb]
    | some blob =>
      rw [processHero_of_blob_some dm d hn blob hb, innerFold_keys,
        keysFold_filter]
      simp [heroCatalogMatches, hb]

theorem processHero_already (dm : DataManager) (enemies : List String)
    (name : String) (hmem : name ∈ enemies) :
    processHero dm (get_item_suggestions dm enemies) name =
      get_item_suggestions dm enemies := by
  cases hb : heroBlob dm name with
  | none => exact processHero_of_blob_none dm _ name hb
  | some blob =>
    rw [processHero_of_blob_some dm _ name blob hb]
    apply innerFold_id
    intro i hi hip
    have hmm := (outerFold_mem dm enemies [] name i).mpr
      (Or.inr ⟨hmem, ⟨blob, hb, hi, hip⟩⟩)
    simpa [get_item_suggestions] using hmm

theorem ctFold_lookup_unknown (dm : DataManager) (enemies : List String)
    (name : String) (hun : dictLookup dm.hero_name_map name = none) :
    ∀ d, dictLookup (enemies.foldl (counterTipStep dm) d) name =
      dictLookup d name := by
  induction enemies with
  | nil => intro d; rfl
  | cons hn enemies ih =>
    intro d
    rw [List.foldl_cons, ih]
    cases h1 : dictLookup dm.hero_name_map hn with
    | none => simp [counterTipStep, h1]
    | some info =>
      cases h2 : dictLookup dm.hero_strategies info.safe_name with
      | none => simp [counterTipStep, h1, h2]
      | some strat =>
        cases h3 : strat.strategies.counter_tips with
        | none => simp [counterTipStep, h1, h2, h3]
        | some tips =>
          simp only [counterTipStep, h1, h2, h3]
          apply dictLookup_insert_ne
          intro he
          rw [← he, hun] at h1
          exact Option.noConfusion h1

theorem counterTipStep_of_blob_none (dm : DataManager)
    (d : Dict (List String)) (hn : String) (hb : heroBlob dm hn = none) :
    counterTipStep dm d hn = d := by
  unfold heroBlob at hb
  cases h1 : dictLookup dm.hero_name_map hn with
  | none => simp [counterTipStep, h1]
  | some info =>
    simp only [h1] at hb
    cases h2 : dictLookup dm.hero_strategies info.safe_name with
    | none => simp [counterTipStep, h1, h2]
    | some strat =>
      simp only [h2] at hb
      cases h3 : strat.strategies.counter_tips with
      | none => simp [counterTipStep, h1, h2, h3]
      | some tips =>
        simp only [h3] at hb
        exact Option.noConfusion hb

theorem get_item_suggestions_empty_of_blob (dm : DataManager)
    (hb : ∀ hn, heroBlob dm hn = none) (enemies : List String) :
    get_item_suggestions dm enemies = [] := by
  unfold get_item_suggestions
  have hgen : ∀ d, enemies.foldl (processHero dm) d = d := by
    induction enemies with
    | nil => intro d; rfl
    | cons hn t ih =>
      intro d
      rw [List.foldl_cons, processHero_of_blob_none dm d hn (hb hn)]
      exact ih d
  exact hgen []

theorem get_counter_tips_empty_of_blob (dm : DataManager)
    (hb : ∀ hn, heroBlob dm hn = none) (enemies : List String) :
    get_counter_tips dm enemies = [] := by
  unfold get_counter_tips
  have hgen : ∀ d, enemies.foldl (counterTipStep dm) d = d := by
    induction enemies with
    | nil => intro d; rfl
    | cons hn t ih =>
      intro d
      rw [List.foldl_cons, counterTipStep_of_blob_none dm d hn (hb hn)]
      exact ih d
  exact hgen []

theorem heroBlob_none_of_strategies_nil (dm : DataManager)
    (h : dm.hero_strategies = []) (hn : String) :
    heroBlob dm hn = none := by
  cases h1 : dictLookup dm.hero_name_map hn with
  | none => simp [heroBlob, h1]
  | some info => simp [heroBlob, h1, h, dictLookup]

theorem heroBlob_none_of_map_nil (dm : DataManager)
    (h : dm.hero_name_map = []) (hn : String) :
    heroBlob dm hn = none := by
  simp [heroBlob, h, dictLookup]

theorem get_strategic_tips_empty_of_strategies_nil (dm : DataManager)
    (h : dm.hero_strategies = []) (hn : String) :
    get_strategic_tips dm hn = [] := by
  cases h1 : dictLookup dm.hero_name_map hn with
  | none => simp [get_strategic_tips, h1]
  | some info => simp [get_strategic_tips, h1, h, dictLookup]

theorem heroBlob_none_of_no_doc (dm : DataManager) (name : String)
    (info : HeroInfo) (h1 : dictLookup dm.hero_name_map name = some info)
    (h2 : dictLookup dm.hero_strategies info.safe_name = none) :
    heroBlob dm name = none := by
  simp [heroBlob, h1, h2]

theorem heroBlob_none_of_no_tips (dm : DataManager) (name : String)
    (info : HeroInfo) (strat : StrategyDoc)
    (h1 : dictLookup dm.hero_name_map name = some info)
    (h2 : dictLookup dm.hero_strategies info.safe_name = some strat)
    (h3 : strat.strategies.counter_tips = none) :
    heroBlob dm name = none := by
  simp [heroBlob, h1, h2, h3]

theorem get_strategic_tips_eq_unknown (dm : DataManager) (hn : String)
    (h : dictLookup dm.hero_name_map hn = none) :
    get_strategic_tips dm hn = [] := by
  simp [get_strategic_tips, h]

theorem get_strategic_tips_eq_no_doc (dm : DataManager) (hn : String)
    (info : HeroInfo) (h1 : dictLookup dm.hero_name_map hn = some info)
    (h2 : dictLookup dm.hero_strategies info.safe_name = none) :
    get_strategic_tips dm hn = [] := by
  simp [get_strategic_tips, h1, h2]

theorem get_strategic_tips_eq_no_general (dm : DataManager) (hn : String)
    (info : HeroInfo) (strat : StrategyDoc)
    (h1 : dictLookup dm.hero_name_map hn = some info)
    (h2 : dictLookup dm.hero_strategies info.safe_name = some strat)
    (h3 : strat.strategies.general_tips = none) :
    get_strategic_tips dm hn = [] := by
  simp [get_strategic_tips, h1, h2, h3]

theorem get_strategic_tips_eq_some (dm : DataManager) (hn : String)
    (info : HeroInfo) (strat : StrategyDoc) (tips : List String)
    (h1 : dictLookup dm.hero_name_map hn = some info)
    (h2 : dictLookup dm.hero_strategies info.safe_name = some strat)
    (h3 : strat.strategies.general_tips = some tips) :
    get_strategic_tips dm hn = tips := by
  simp [get_strategic_tips, h1, h2, h3]

theorem get_item_suggestions_single (dm : DataManager) (name : String)
    (hb : heroBlob dm name = none) :
    get_item_suggestions dm [name] = [] := by
  unfold get_item_suggestions
  rw [List.foldl_cons, processHero_of_blob_none dm [] name hb]
  rfl

theorem get_counter_tips_single (dm : DataManager) (name : String)
    (hb : heroBlob dm name = none) :
    get_counter_tips dm [name] = [] := by
  unfold get_counter_tips
  rw [List.foldl_cons, counterTipStep_of_blob_none dm [] name hb]
  rfl

theorem load_json_ok_of_ne (dp fn : String) (c : FileContent α)
    (h : c ≠ FileContent.undecodable) :
    ∃ r, load_json dp fn c = LoadResult.ok r := by
  cases c with
  | missing => exact ⟨_, rfl⟩
  | malformed => exact ⟨_, rfl⟩
  | undecodable => exact absurd rfl h
  | wellFormed a => exact ⟨_, rfl⟩

theorem stratList_step_not_json (dp : String)
    (acc : Dict StrategyDoc × List String) (fn : String)
    (c : FileContent StrategyJson)
    (rest : List (String × FileContent StrategyJson))
    (h : pyEndsWith fn ".json" = false) :
    loadStrategiesList dp acc ((fn, c) :: rest) =
      loadStrategiesList dp acc rest := by
  simp [loadStrategiesList, h]

theorem stratList_step_missing (dp : String)
    (acc : Dict StrategyDoc × List String) (fn : String)
    (rest : List (String × FileContent StrategyJson))
    (h : pyEndsWith fn ".json" = true) :
    loadStrategiesList dp acc ((fn, FileContent.missing) :: rest) =
      loadStrategiesList dp
        (acc.1, acc.2 ++ ["Error: " ++
          pathJoin dp (pathJoin "howdoiplay_json" fn) ++ " not found."])
        rest := by
  simp [loadStrategiesList, h, load_json]

theorem stratList_step_malformed (dp : String)
    (acc : Dict StrategyDoc × List String) (fn : String)
    (rest : List (String × FileContent StrategyJson))
    (h : pyEndsWith fn ".json" = true) :
    loadStrategiesList dp acc ((fn, FileContent.malformed) :: rest) =
      loadStrategiesList dp
        (acc.1, acc.2 ++ ["Error: Could not decode JSON from " ++
          pathJoin dp (pathJoin "howdoiplay_json" fn) ++ "."]) rest := by
  simp [loadStrategiesList, h, load_json]

theorem stratList_step_undecodable (dp : String)
    (acc : Dict StrategyDoc × List String) (fn : String)
    (rest : List (String × FileContent StrategyJson))
    (h : pyEndsWith fn ".json" = true) :
    loadStrategiesList dp acc ((fn, FileContent.undecodable) :: rest) =
      LoadResult.raised (PyError.unicodeDecodeError
        (pathJoin dp (pathJoin "howdoiplay_json" fn))) := by
  simp [loadStrategiesList, h, load_json]

theorem stratList_step_falsy (dp : String)
    (acc : Dict StrategyDoc × List String) (fn : String)
    (rest : List (String × FileContent StrategyJson))
    (h : pyEndsWith fn ".json" = true) :
    loadStrategiesList dp acc
        ((fn, FileContent.wellFormed StrategyJson.falsy) :: rest) =
      loadStrategiesList dp acc rest := by
  simp [loadStrategiesList, h, load_json]

theorem stratList_step_doc (dp : String)
    (acc : Dict StrategyDoc × List String) (fn : String)
    (doc : StrategyDoc)
    (rest : List (String × FileContent StrategyJson))
    (h : pyEndsWith fn ".json" = true) :
    loadStrategiesList dp acc
        ((fn, FileContent.wellFormed (StrategyJson.doc doc)) :: rest) =
      loadStrategiesList dp
        (dictInsert acc.1 (pyReplace fn ".json" "") doc, acc.2) rest := by
  simp [loadStrategiesList, h, load_json]

theorem stratList_ok_of_no_undecodable (dp : String)
    (files : List (String × FileContent StrategyJson)) :
    ∀ acc, (∀ fn, (fn, FileContent.undecodable) ∈ files →
        pyEndsWith fn ".json" = false) →
      ∃ res, loadStrategiesList dp acc files = LoadResult.ok res := by
  induction files with
  | nil => intro acc _; exact ⟨acc, rfl⟩
  | cons f rest ih =>
    intro acc hno
    obtain ⟨fn, c⟩ := f
    have htail : ∀ fn2, (fn2, FileContent.undecodable) ∈ rest →
        pyEndsWith fn2 ".json" = false :=
      fun fn2 hm => hno fn2 (List.mem_cons_of_mem _ hm)
    by_cases he : pyEndsWith fn ".json" = true
    · cases c with
      | missing =>
        rw [stratList_step_missing dp acc fn rest he]
        exact ih _ htail
      | malformed =>
        rw [stratList_step_malformed dp acc fn rest he]
        exact ih _ htail
      | undecodable =>
        rw [hno fn (List.mem_cons_self _ _)] at he
        simp at he
      | wellFormed j =>
        cases j with
        | falsy =>
          rw [stratList_step_falsy dp acc fn rest he]
          exact ih _ htail
        | doc doc =>
          rw [stratList_step_doc dp acc fn doc rest he]
          exact ih _ htail
    · rw [stratList_step_not_json dp acc fn c rest (by simpa using he)]
      exact ih _ htail

theorem stratList_raises_of_undecodable (dp : String)
    (files : List (String × FileContent StrategyJson)) :
    ∀ acc fn, (fn, FileContent.undecodable) ∈ files →
      pyEndsWith fn ".json" = true →
      ∃ e, loadStrategiesList dp acc files = LoadResult.raised e := by
  induction files with
  | nil =>
    intro acc fn hm
    exact absurd hm (List.not_mem_nil _)
  | cons f rest ih =>
    intro acc fn hm he
    rcases List.mem_cons.mp hm with heq | hm2
    · rw [← heq, stratList_step_undecodable dp acc fn rest he]
      exact ⟨_, rfl⟩
    · obtain ⟨fn1, c⟩ := f
      by_cases he1 : pyEndsWith fn1 ".json" = true
      · cases c with
        | missing =>
          rw [stratList_step_missing dp acc fn1 rest he1]
          exact ih _ fn hm2 he
        | malformed =>
          rw [stratList_step_malformed dp acc fn1 rest he1]
          exact ih _ fn hm2 he
        | undecodable =>
          rw [stratList_step_undecodable dp acc fn1 rest he1]
          exact ⟨_, rfl⟩
        | wellFormed j =>
          cases j with
          | falsy =>
            rw [stratList_step_falsy dp acc fn1 rest he1]
            exact ih _ fn hm2 he
          | doc doc =>
            rw [stratList_step_doc dp acc fn1 doc rest he1]
            exact ih _ fn hm2 he
      · rw [stratList_step_not_json dp acc fn1 c rest (by simpa using he1)]
        exact ih _ fn hm2 he

theorem stratList_key_mono (dp : String)
    (files : List (String × FileContent StrategyJson)) :
    ∀ (acc : Dict StrategyDoc × List String) (k : String)
      (res : Dict StrategyDoc × List String),
      loadStrategiesList dp acc files = LoadResult.ok res →
      (dictLookup acc.1 k).isSome = true →
      (dictLookup res.1 k).isSome = true := by
  induction files with
  | nil =>
    intro acc k res hok hsome
    simp only [loadStrategiesList, LoadResult.ok.injEq] at hok
    rw [← hok]
    exact hsome
  | cons f rest ih =>
    intro acc k res hok hsome
    obtain ⟨fn, c⟩ := f
    by_cases he : pyEndsWith fn ".json" = true
    · cases c with
      | missing =>
        rw [stratList_step_missing dp acc fn rest he] at hok
        exact ih _ k res hok hsome
      | malformed =>
        rw [stratList_step_malformed dp acc fn rest he] at hok
        exact ih _ k res hok hsome
      | undecodable =>
        rw [stratList_step_undecodable dp acc fn rest he] at hok
        exact LoadResult.noConfusion hok
      | wellFormed j =>
        cases j with
        | falsy =>
          rw [stratList_step_falsy dp acc fn rest he] at hok
          exact ih _ k res hok hsome
        | doc doc =>
          rw [stratList_step_doc dp acc fn doc rest he] at hok
          exact ih _ k res hok
            ((dictLookup_insert_isSome _ _ _ _).mpr (Or.inr hsome))
    · rw [stratList_step_not_json dp acc fn c rest (by simpa using he)]
        at hok
      exact ih _ k res hok hsome

theorem stratList_mem (dp : String)
    (files : List (String × FileContent StrategyJson)) :
    ∀ (acc : Dict StrategyDoc × List String) (fn : String)
      (doc : StrategyDoc) (res : Dict StrategyDoc × List String),
      loadStrategiesList dp acc files = LoadResult.ok res →
      (fn, FileContent.wellFormed (StrategyJson.doc doc)) ∈ files →
      pyEndsWith fn ".json" = true →
      (dictLookup res.1 (pyReplace fn ".json" "")).isSome = true := by
  induction files with
  | nil =>
    intro acc fn doc res _ hm
    exact absurd hm (List.not_mem_nil _)
  | cons f rest ih =>
    intro acc fn doc res hok hm he
    rcases List.mem_cons.mp hm with heq | hm2
    · rw [← heq, stratList_step_doc dp acc fn doc rest he] at hok
      exact stratList_key_mono dp rest _ _ res hok
        ((dictLookup_insert_isSome _ _ _ _).mpr (Or.inl rfl))
    · obtain ⟨fn1, c⟩ := f
      by_cases he1 : pyEndsWith fn1 ".json" = true
      · cases c with
        | missing =>
          rw [stratList_step_missing dp acc fn1 rest he1] at hok
          exact ih _ fn doc res hok hm2 he
        | malformed =>
          rw [stratList_step_malformed dp acc fn1 rest he1] at hok
          exact ih _ fn doc res hok hm2 he
        | undecodable =>
          rw [stratList_step_undecodable dp acc fn1 rest he1] at hok
          exact LoadResult.noConfusion hok
        | wellFormed j =>
          cases j with
          | falsy =>
            rw [stratList_step_falsy dp acc fn1 rest he1] at hok
            exact ih _ fn doc res hok hm2 he
          | doc doc1 =>
            rw [stratList_step_doc dp acc fn1 doc1 rest he1] at hok
            exact ih _ fn doc res hok hm2 he
      · rw [stratList_step_not_json dp acc fn1 c rest
            (by simpa using he1)] at hok
        exact ih _ fn doc res hok hm2 he

theorem stratList_key_origin (dp : String)
    (files : List (String × FileContent StrategyJson)) :
    ∀ (acc : Dict StrategyDoc × List String) (k : String)
      (res : Dict StrategyDoc × List String),
      loadStrategiesList dp acc files = LoadResult.ok res →
      (dictLookup res.1 k).isSome = true →
      (dictLookup acc.1 k).isSome = true ∨
        ∃ fn doc,
          (fn, FileContent.wellFormed (StrategyJson.doc doc)) ∈ files ∧
          pyEndsWith fn ".json" = true ∧ k = pyReplace fn ".json" "" := by
  induction files with
  | nil =>
    intro acc k res hok hsome
    simp only [loadStrategiesList, LoadResult.ok.injEq] at hok
    rw [← hok] at hsome
    exact Or.inl hsome
  | cons f rest ih =>
    intro acc k res hok hsome
    obtain ⟨fn1, c⟩ := f
    by_cases he1 : pyEndsWith fn1 ".json" = true
    · cases c with
      | missing =>
        rw [stratList_step_missing dp acc fn1 rest he1] at hok
        rcases ih _ k res hok hsome with h | ⟨fn, doc, hm, he, hk⟩
        · exact Or.inl h
        · exact Or.inr ⟨fn, doc, List.mem_cons_of_mem _ hm, he, hk⟩
      | malformed =>
        rw [stratList_step_malformed dp acc fn1 rest he1] at hok
        rcases ih _ k res hok hsome with h | ⟨fn, doc, hm, he, hk⟩
        · exact Or.inl h
        · exact Or.inr ⟨fn, doc, List.mem_cons_of_mem _ hm, he, hk⟩
      | undecodable =>
        rw [stratList_step_undecodable dp acc fn1 rest he1] at hok
        exact LoadResult.noConfusion hok
      | wellFormed j =>
        cases j with
        | falsy =>
          rw [stratList_step_falsy dp acc fn1 rest he1] at hok
          rcases ih _ k res hok hsome with h | ⟨fn, doc, hm, he, hk⟩
          · exact Or.inl h
          · exact Or.inr ⟨fn, doc, List.mem_cons_of_mem _ hm, he, hk⟩
        | doc doc1 =>
          rw [stratList_step_doc dp acc fn1 doc1 rest he1] at hok
          rcases ih _ k res hok hsome with h | ⟨fn, doc, hm, he, hk⟩
          · rcases (dictLookup_insert_isSome _ _ _ _).mp h with hkey | hacc
            · exact Or.inr ⟨fn1, doc1, List.mem_cons_self _ _, he1, hkey⟩
            · exact Or.inl hacc
          · exact Or.inr ⟨fn, doc, List.mem_cons_of_mem _ hm, he, hk⟩
    · rw [stratList_step_not_json dp acc fn1 c rest
          (by simpa using he1)] at hok
      rcases ih _ k res hok hsome with h | ⟨fn, doc, hm, he, hk⟩
      · exact Or.inl h
      · exact Or.inr ⟨fn, doc, List.mem_cons_of_mem _ hm, he, hk⟩

theorem stratList_log_mono (dp : String)
    (files : List (String × FileContent StrategyJson)) :
    ∀ (acc : Dict StrategyDoc × List String) (msg : String)
      (res : Dict StrategyDoc × List String),
      loadStrategiesList dp acc files = LoadResult.ok res →
      msg ∈ acc.2 → msg ∈ res.2 := by
  induction files with
  | nil =>
    intro acc msg res hok hmem
    simp only [loadStrategiesList, LoadResult.ok.injEq] at hok
    rw [← hok]
    exact hmem
  | cons f rest ih =>
    intro acc msg res hok hmem
    obtain ⟨fn, c⟩ := f
    by_cases he : pyEndsWith fn ".json" = true
    · cases c with
      | missing =>
        rw [stratList_step_missing dp acc fn rest he] at hok
        exact ih _ msg res hok (List.mem_append_left _ hmem)
      | malformed =>
        rw [stratList_step_malformed dp acc fn rest he] at hok
        exact ih _ msg res hok (List.mem_append_left _ hmem)
      | undecodable =>
        rw [stratList_step_undecodable dp acc fn rest he] at hok
        exact LoadResult.noConfusion hok
      | wellFormed j =>
        cases j with
        | falsy =>
          rw [stratList_step_falsy dp acc fn rest he] at hok
          exact ih _ msg res hok hmem
        | doc doc =>
          rw [stratList_step_doc dp acc fn doc rest he] at hok
          exact ih _ msg res hok hmem
    · rw [stratList_step_not_json dp acc fn c rest (by simpa using he)]
        at hok
      exact ih _ msg res hok hmem

theorem stratList_malformed_log (dp : String)
    (files : List (String × FileContent StrategyJson)) :
    ∀ (acc : Dict StrategyDoc × List String) (fn : String)
      (res : Dict StrategyDoc × List String),
      loadStrategiesList dp acc files = LoadResult.ok res →
      (fn, FileContent.malformed) ∈ files →
      pyEndsWith fn ".json" = true →
      ("Error: Could not decode JSON from " ++
        pathJoin dp (pathJoin "howdoiplay_json" fn) ++ ".") ∈ res.2 := by
  induction files with
  | nil =>
    intro acc fn res _ hm
    exact absurd hm (List.not_mem_nil _)
  | cons f rest ih =>
    intro acc fn res hok hm he
    rcases List.mem_cons.mp hm with heq | hm2
    · rw [← heq, stratList_step_malformed dp acc fn rest he] at hok
      exact stratList_log_mono dp rest _ _ res hok
        (List.mem_append_right _ (by simp))
    · obtain ⟨fn1, c⟩ := f
      by_cases he1 : pyEndsWith fn1 ".json" = true
      · cases c with
        | missing =>
          rw [stratList_step_missing dp acc fn1 rest he1] at hok
          exact ih _ fn res hok hm2 he
        | malformed =>
          rw [stratList_step_malformed dp acc fn1 rest he1] at hok
          exact ih _ fn res hok hm2 he
        | undecodable =>
          rw [stratList_step_undecodable dp acc fn1 rest he1] at hok
          exact LoadResult.noConfusion hok
        | wellFormed j =>
          cases j with
          | falsy =>
            rw [stratList_step_falsy dp acc fn1 rest he1] at hok
            exact ih _ fn res hok hm2 he
          | doc doc =>
            rw [stratList_step_doc dp acc fn1 doc rest he1] at hok
            exact ih _ fn res hok hm2 he
      · rw [stratList_step_not_json dp acc fn1 c rest
            (by simpa using he1)] at hok
        exact ih _ fn res hok hm2 he

theorem load_all_data_ok_of (dp : String) (fs : FileSystem)
    (r1 : Option (List HeroRec) × List String)
    (r2 : Option (List NormEntry) × List String)
    (strat : Dict StrategyDoc × List String)
    (h1 : load_json dp "heroes.json" fs.heroes_json = LoadResult.ok r1)
    (h2 : load_json dp "normalized_heroes.json" fs.normalized_heroes_json =
      LoadResult.ok r2)
    (h3 : loadStrategiesDir dp fs.howdoiplay_dir = LoadResult.ok strat) :
    load_all_data dp fs = LoadResult.ok
      ({ data_path := dp
         heroes := r1.1.getD []
         hero_strategies := strat.1
         normalized_heroes := r2.1.getD []
         hero_name_map := build_hero_name_map (r2.1.getD []) },
       ["Loading game data..."] ++ r1.2 ++ r2.2 ++ strat.2 ++
         ["Loaded " ++ toString (r1.1.getD []).length ++ " heroes.",
          "Loaded normalized data for " ++
            toString (r2.1.getD []).length ++ " heroes.",
          "Loaded strategies for " ++ toString strat.1.length ++
            " heroes."]) := by
  simp [load_all_data, h1, h2, h3]

theorem load_ok_inv (dp : String) (fs : FileSystem) (dm : DataManager)
    (log : List String)
    (hok : load_all_data dp fs = LoadResult.ok (dm, log)) :
    ∃ r1 r2 strat,
      load_json dp "heroes.json" fs.heroes_json = LoadResult.ok r1 ∧
      load_json dp "normalized_heroes.json" fs.normalized_heroes_json =
        LoadResult.ok r2 ∧
      loadStrategiesDir dp fs.howdoiplay_dir = LoadResult.ok strat ∧
      dm = { data_path := dp
             heroes := r1.1.getD []
             hero_strategies := strat.1
             normalized_heroes := r2.1.getD []
             hero_name_map := build_hero_name_map (r2.1.getD []) } ∧
      log = ["Loading game data..."] ++ r1.2 ++ r2.2 ++ strat.2 ++
        ["Loaded " ++ toString (r1.1.getD []).length ++ " heroes.",
         "Loaded normalized data for " ++
           toString (r2.1.getD []).length ++ " heroes.",
         "Loaded strategies for " ++ toString strat.1.length ++
           " heroes."] := by
  unfold load_all_data at hok
  cases h1 : load_json dp "heroes.json" fs.heroes_json with
  | raised e =>
    simp only [h1] at hok
    exact LoadResult.noConfusion hok
  | ok r1 =>
    simp only [h1] at hok
    cases h2 : load_json dp "normalized_heroes.json"
        fs.normalized_heroes_json with
    | raised e =>
      simp only [h2] at hok
      exact LoadResult.noConfusion hok
    | ok r2 =>
      simp only [h2] at hok
      cases h3 : loadStrategiesDir dp fs.howdoiplay_dir with
      | raised e =>
        simp only [h3] at hok
        exact LoadResult.noConfusion hok
      | ok strat =>
        simp only [h3, LoadResult.ok.injEq, Prod.mk.injEq] at hok
        exact ⟨r1, r2, strat, rfl, rfl, rfl, hok.1.symm, hok.2.symm⟩

theorem load_ok_heroes_empty (dp : String) (fs : FileSystem)
    (dm : DataManager) (log : List String)
    (hok : load_all_data dp fs = LoadResult.ok (dm, log))
    (h : fs.heroes_json = .missing ∨ fs.heroes_json = .malformed) :
    dm.heroes = [] := by
  obtain ⟨r1, r2, strat, h1, h2, h3, hdm, hlog⟩ :=
    load_ok_inv dp fs dm log hok
  have hr1 : r1.1 = none := by
    rcases h with h | h
    all_goals
      rw [h] at h1
      simp only [load_json, LoadResult.ok.injEq] at h1
      simp [← h1]
  rw [hdm]
  simp [hr1]

theorem load_ok_normalized_empty (dp : String) (fs : FileSystem)
    (dm : DataManager) (log : List String)
    (hok : load_all_data dp fs = LoadResult.ok (dm, log))
    (h : fs.normalized_heroes_json = .missing ∨
      fs.normalized_heroes_json = .malformed) :
    dm.normalized_heroes = [] ∧ dm.hero_name_map = [] := by
  obtain ⟨r1, r2, strat, h1, h2, h3, hdm, hlog⟩ :=
    load_ok_inv dp fs dm log hok
  have hr2 : r2.1 = none := by
    rcases h with h | h
    all_goals
      rw [h] at h2
      simp only [load_json, LoadResult.ok.injEq] at h2
      simp [← h2]
  rw [hdm]
  simp [hr2, build_hero_name_map]

theorem load_ok_log_heroes_missing (dp : String) (fs : FileSystem)
    (dm : DataManager) (log : List String)
    (hok : load_all_data dp fs = LoadResult.ok (dm, log))
    (h : fs.heroes_json = .missing) :
    ("Error: " ++ pathJoin dp "heroes.json" ++ " not found.") ∈ log := by
  obtain ⟨r1, r2, strat, h1, h2, h3, hdm, hlog⟩ :=
    load_ok_inv dp fs dm log hok
  rw [h] at h1
  simp only [load_json, LoadResult.ok.injEq] at h1
  rw [hlog, ← h1]
  simp

theorem load_ok_log_heroes_malformed (dp : String) (fs : FileSystem)
    (dm : DataManager) (log : List String)
    (hok : load_all_data dp fs = LoadResult.ok (dm, log))
    (h : fs.heroes_json = .malformed) :
    ("Error: Could not decode JSON from " ++ pathJoin dp "heroes.json" ++
      ".") ∈ log := by
  obtain ⟨r1, r2, strat, h1, h2, h3, hdm, hlog⟩ :=
    load_ok_inv dp fs dm log hok
  rw [h] at h1
  simp only [load_json, LoadResult.ok.injEq] at h1
  rw [hlog, ← h1]
  simp

theorem load_ok_log_normalized_missing (dp : String) (fs : FileSystem)
    (dm : DataManager) (log : List String)
    (hok : load_all_data dp fs = LoadResult.ok (dm, log))
    (h : fs.normalized_heroes_json = .missing) :
    ("Error: " ++ pathJoin dp "normalized_heroes.json" ++ " not found.") ∈
      log := by
  obtain ⟨r1, r2, strat, h1, h2, h3, hdm, hlog⟩ :=
    load_ok_inv dp fs dm log hok
  rw [h] at h2
  simp only [load_json, LoadResult.ok.injEq] at h2
  rw [hlog, ← h2]
  simp

theorem load_ok_log_normalized_malformed (dp : String) (fs : FileSystem)
    (dm : DataManager) (log : List String)
    (hok : load_all_data dp fs = LoadResult.ok (dm, log))
    (h : fs.normalized_heroes_json = .malformed) :
    ("Error: Could not decode JSON from " ++
      pathJoin dp "normalized_heroes.json" ++ ".") ∈ log := by
  obtain ⟨r1, r2, strat, h1, h2, h3, hdm, hlog⟩ :=
    load_ok_inv dp fs dm log hok
  rw [h] at h2
  simp only [load_json, LoadResult.ok.injEq] at h2
  rw [hlog, ← h2]
  simp

theorem load_ok_strategies_none (dp : String) (fs : FileSystem)
    (dm : DataManager) (log : List String)
    (hok : load_all_data dp fs = LoadResult.ok (dm, log))
    (h : fs.howdoiplay_dir = none) :
    dm.hero_strategies = [] := by
  obtain ⟨r1, r2, strat, h1, h2, h3, hdm, hlog⟩ :=
    load_ok_inv dp fs dm log hok
  rw [h] at h3
  simp only [loadStrategiesDir, LoadResult.ok.injEq] at h3
  rw [hdm]
  simp [← h3]

theorem load_ok_strategies_some (dp : String) (fs : FileSystem)
    (files : List (String × FileContent StrategyJson))
    (dm : DataManager) (log : List String)
    (hok : load_all_data dp fs = LoadResult.ok (dm, log))
    (h : fs.howdoiplay_dir = some files) :
    ∃ strat, loadStrategiesList dp ([], []) files = LoadResult.ok strat ∧
      dm.hero_strategies = strat.1 ∧
      (∀ msg, msg ∈ strat.2 → msg ∈ log) := by
  obtain ⟨r1, r2, strat, h1, h2, h3, hdm, hlog⟩ :=
    load_ok_inv dp fs dm log hok
  rw [h] at h3
  simp only [loadStrategiesDir] at h3
  refine ⟨strat, h3, ?_, ?_⟩
  · rw [hdm]
  · intro msg hm
    rw [hlog]
    simp only [List.mem_append, List.mem_cons]
    tauto


theorem foldl_flatten_eq (g : List String → String → List String)
    (L : List (List String)) :
    ∀ init, (L.flatten).foldl g init =
      L.foldl (fun ks l => l.foldl g ks) init := by
  induction L with
  | nil => intro init; rfl
  | cons x L ih =>
    intro init
    rw [List.flatten_cons, List.foldl_append, List.foldl_cons, ih]

/-- C1: for every knowledge base and every caller-supplied input, each of
the three query operations returns normally on missing data — an
unresolvable name, an absent strategy document, or a strategy document
whose nested strategies record lacks the expected tip field yields an
empty collection or a missing key.  The embedded operations are total
functions, so no exception is possible; this theorem exhibits the
absence-valued results in each missing-data situation. -/
theorem claim_C1 (dm : DataManager) (name : String) :
    (dictLookup dm.hero_name_map name = none →
      get_item_suggestions dm [name] = [] ∧
      get_strategic_tips dm name = [] ∧
      get_counter_tips dm [name] = []) ∧
    (∀ info, dictLookup dm.hero_name_map name = some info →
      dictLookup dm.hero_strategies info.safe_name = none →
      get_item_suggestions dm [name] = [] ∧
      get_strategic_tips dm name = [] ∧
      get_counter_tips dm [name] = []) ∧
    (∀ info strat, dictLookup dm.hero_name_map name = some info →
      dictLookup dm.hero_strategies info.safe_name = some strat →
      (strat.strategies.counter_tips = none →
        get_item_suggestions dm [name] = [] ∧
        get_counter_tips dm [name] = []) ∧
      (strat.strategies.general_tips = none →
        get_strategic_tips dm name = [])) := by
  refine ⟨?_, ?_, ?_⟩
  · intro h
    have hb := heroBlob_none_of_unknown dm name h
    exact ⟨get_item_suggestions_single dm name hb,
      get_strategic_tips_eq_unknown dm name h,
      get_counter_tips_single dm name hb⟩
  · intro info h1 h2
    have hb := heroBlob_none_of_no_doc dm name info h1 h2
    exact ⟨get_item_suggestions_single dm name hb,
      get_strategic_tips_eq_no_doc dm name info h1 h2,
      get_counter_tips_single dm name hb⟩
  · intro info strat h1 h2
    constructor
    · intro h3
      have hb := heroBlob_none_of_no_tips dm name info strat h1 h2 h3
      exact ⟨get_item_suggestions_single dm name hb,
        get_counter_tips_single dm name hb⟩
    · intro h3
      exact get_strategic_tips_eq_no_general dm name info strat h1 h2 h3

/-- C1 witness: the unknown name of the specification example evaluated on
the example knowledge base. -/
theorem claim_C1_witness :
    dictLookup dmSpec.hero_name_map "Unknown Hero" = none ∧
    get_item_suggestions dmSpec ["Unknown Hero"] = [] ∧
    get_strategic_tips dmSpec "Unknown Hero" = [] ∧
    get_counter_tips dmSpec ["Unknown Hero"] = [] :=
  ⟨by decide, (claim_C1 dmSpec "Unknown Hero").1 (by decide)⟩

/-- C2 counterexample: the keys of `get_item_suggestions` do NOT follow
catalog order.  With opponent A matching only Butterfly (catalog position
8) and opponent B matching only Black King Bar (catalog position 0), the
output keys are Butterfly first — the order of the first matching
opponent in the input, not the catalog order. -/
theorem claim_C2_counterexample :
    dictKeys (get_item_suggestions dmAB ["A", "B"]) =
      ["Butterfly", "Black King Bar"] ∧
    listIdx "Black King Bar" COUNTER_ITEMS <
      listIdx "Butterfly" COUNTER_ITEMS :=
  ⟨by decide, by decide⟩

/-- C2 amended: the keys of the mapping returned by
`get_item_suggestions` appear in first-match order — opponents are
scanned in input order and the catalog in catalog order for each
opponent, and an item key is appended when it is first matched.  Catalog
order therefore governs only the items first matched by the same
opponent; across opponents, input order dominates. -/
theorem claim_C2_amended (dm : DataManager) (enemy_heroes : List String) :
    dictKeys (get_item_suggestions dm enemy_heroes) =
      firstSeenKeys dm enemy_heroes := by
  unfold get_item_suggestions firstSeenKeys
  rw [outerFold_keys, foldl_flatten_eq, List.foldl_map]
  rfl

/-- C3: for a catalog item and a resolvable opponent in the input whose
document has the counter-tips field, the opponent appears under that item
exactly once when the lower-cased item name occurs in the lower-cased
space-joined tips, and zero times otherwise (multiplicity of the
substring is irrelevant); an item no opponent matches is absent from the
output, and no stored value list is ever empty. -/
theorem claim_C3 (dm : DataManager) (enemies : List String) (item : String)
    (hCI : item ∈ COUNTER_ITEMS) :
    (∀ hero info strat tips, hero ∈ enemies →
      dictLookup dm.hero_name_map hero = some info →
      dictLookup dm.hero_strategies info.safe_name = some strat →
      strat.strategies.counter_tips = some tips →
      countOcc hero (valueAt (get_item_suggestions dm enemies) item) =
        if pyIn (pyLower item) (pyLower (pyJoin " " tips)) = true then 1
        else 0) ∧
    ((∀ hn, hn ∈ enemies → ¬ HeroCounters dm hn item) →
      dictLookup (get_item_suggestions dm enemies) item = none) ∧
    (∀ l, dictLookup (get_item_suggestions dm enemies) item = some l →
      l ≠ []) := by
  refine ⟨?_, ?_, ?_⟩
  · intro hero info strat tips hmem h1 h2 h3
    have hb : heroBlob dm hero = some (pyLower (pyJoin " " tips)) := by
      simp [heroBlob, h1, h2, h3]
    have hG : get_item_suggestions dm enemies =
        enemies.foldl (processHero dm) [] := rfl
    have hcount := outerFold_count dm enemies [] hero item
    rw [valueAt_nil] at hcount
    rw [if_neg (List.not_mem_nil hero)] at hcount
    rw [hG, hcount]
    by_cases hp : pyIn (pyLower item) (pyLower (pyJoin " " tips)) = true
    · rw [if_pos ⟨hmem,
        (HeroCounters_iff dm hero item _ hb).mpr ⟨hCI, hp⟩⟩, if_pos hp]
    · rw [if_neg ?_, if_neg hp]
      rintro ⟨_, hc⟩
      exact hp ((HeroCounters_iff dm hero item _ hb).mp hc).2
  · intro hno
    have hG : get_item_suggestions dm enemies =
        enemies.foldl (processHero dm) [] := rfl
    rw [hG, outerFold_lookup_frame dm enemies [] item hno]
    rfl
  · intro l hl
    refine outerFold_nonempty dm enemies [] ?_ item l hl
    intro i l2 h
    simp [dictLookup] at h

/-- C3 witness: the specification example — a Black King Bar tip — gives
the opponent exactly one occurrence under that item. -/
theorem claim_C3_witness :
    "Black King Bar" ∈ COUNTER_ITEMS ∧
    pyIn (pyLower "Black King Bar")
      (pyLower (pyJoin " "
        ["Buy a Black King Bar to counter Hero A\x27s magic burst"])) =
      true ∧
    countOcc "Hero A"
      (valueAt (get_item_suggestions dmSpec ["Hero A"]) "Black King Bar") =
      (if pyIn (pyLower "Black King Bar")
          (pyLower (pyJoin " "
            ["Buy a Black King Bar to counter Hero A\x27s magic burst"])) =
          true then 1 else 0) :=
  ⟨by decide, by decide,
    (claim_C3 dmSpec ["Hero A"] "Black King Bar" (by decide)).1
      "Hero A" ⟨"hero_a", ""⟩
      ⟨⟨some ["Buy a Black King Bar to counter Hero A\x27s magic burst"],
        none⟩⟩
      ["Buy a Black King Bar to counter Hero A\x27s magic burst"]
      (by decide) (by decide) (by decide) (by decide)⟩

/-- C4 counterexample: an unresolvable opponent name can still appear as
a KEY of `get_item_suggestions` when the unknown name happens to equal a
catalog item that another resolvable opponent matches — here the unknown
name "Black King Bar" becomes an output key through Hero A's tips, so the
claim that the name appears "as no key" is false as stated. -/
theorem claim_C4_counterexample :
    dictLookup dmSpec.hero_name_map "Black King Bar" = none ∧
    dictLookup (get_item_suggestions dmSpec ["Black King Bar", "Hero A"])
      "Black King Bar" = some ["Hero A"] :=
  ⟨by decide, by decide⟩

/-- C4 amended: an opponent name absent from the name-to-id lookup is
excluded from every value list of `get_item_suggestions` and has no entry
(key) in `get_counter_tips`, and neither operation errors; the name may
still coincide with a catalog item serving as a `get_item_suggestions`
key through other opponents. -/
theorem claim_C4_amended (dm : DataManager) (enemies : List String)
    (name : String) (hun : dictLookup dm.hero_name_map name = none) :
    (∀ item l,
      dictLookup (get_item_suggestions dm enemies) item = some l →
      name ∉ l) ∧
    dictLookup (get_counter_tips dm enemies) name = none := by
  constructor
  · intro item l hl hmem
    have hval : valueAt (get_item_suggestions dm enemies) item = l := by
      unfold valueAt
      rw [hl]
      rfl
    have h2 : name ∈
        valueAt ((enemies.foldl (processHero dm) [])) item := by
      have hG : get_item_suggestions dm enemies =
          enemies.foldl (processHero dm) [] := rfl
      rw [← hG, hval]
      exact hmem
    rcases (outerFold_mem dm enemies [] name item).mp h2 with
      hv | ⟨-, ⟨blob, hb, -, -⟩⟩
    · simp [valueAt, dictLookup] at hv
    · rw [heroBlob_none_of_unknown dm name hun] at hb
      exact Option.noConfusion hb
  · have hG : get_counter_tips dm enemies =
        enemies.foldl (counterTipStep dm) [] := rfl
    rw [hG, ctFold_lookup_unknown dm enemies name hun []]
    rfl

/-- C4 witness: the end-to-end example of the specification — an unknown
opponent gets no entry in `counterTips`. -/
theorem claim_C4_witness :
    dictLookup dmSpec.hero_name_map "Unknown Hero" = none ∧
    dictLookup (get_counter_tips dmSpec ["Hero A", "Unknown Hero"])
      "Unknown Hero" = none :=
  ⟨by decide,
    (claim_C4_amended dmSpec ["Hero A", "Unknown Hero"] "Unknown Hero"
      (by decide)).2⟩

/-- C5: `get_strategic_tips` returns the empty list when the name is
unresolvable, the strategy document is absent, or the document lacks the
general-tips field, and otherwise returns the document's general-tip list
verbatim, in source order, with no truncation. -/
theorem claim_C5 (dm : DataManager) (hero : String) :
    (dictLookup dm.hero_name_map hero = none →
      get_strategic_tips dm hero = []) ∧
    (∀ info, dictLookup dm.hero_name_map hero = some info →
      dictLookup dm.hero_strategies info.safe_name = none →
      get_strategic_tips dm hero = []) ∧
    (∀ info strat, dictLookup dm.hero_name_map hero = some info →
      dictLookup dm.hero_strategies info.safe_name = some strat →
      strat.strategies.general_tips = none →
      get_strategic_tips dm hero = []) ∧
    (∀ info strat tips, dictLookup dm.hero_name_map hero = some info →
      dictLookup dm.hero_strategies info.safe_name = some strat →
      strat.strategies.general_tips = some tips →
      get_strategic_tips dm hero = tips) :=
  ⟨fun h => get_strategic_tips_eq_unknown dm hero h,
   fun info h1 h2 => get_strategic_tips_eq_no_doc dm hero info h1 h2,
   fun info strat h1 h2 h3 =>
     get_strategic_tips_eq_no_general dm hero info strat h1 h2 h3,
   fun info strat tips h1 h2 h3 =>
     get_strategic_tips_eq_some dm hero info strat tips h1 h2 h3⟩

/-- C5 witness: the specification example — Hero B's two general tips
come back verbatim and in order. -/
theorem claim_C5_witness :
    dictLookup dmSpec.hero_name_map "Hero B" =
      some ⟨"hero_b", ""⟩ ∧
    get_strategic_tips dmSpec "Hero B" =
      ["Farm efficiently", "Ward the jungle"] :=
  ⟨by decide,
    (claim_C5 dmSpec "Hero B").2.2.2 ⟨"hero_b", ""⟩
      ⟨⟨none, some ["Farm efficiently", "Ward the jungle"]⟩⟩
      ["Farm efficiently", "Ward the jungle"]
      (by decide) (by decide) (by decide)⟩

/-- C6 counterexample: knowledge-base construction CAN throw for a
malformed roster file.  `_load_json` catches only `FileNotFoundError`
and `json.JSONDecodeError`; a roster file whose bytes are not valid
UTF-8 ("fails to parse as structured text") makes `f.read()` raise an
uncaught `UnicodeDecodeError`, so loading does not complete. -/
theorem claim_C6_counterexample :
    load_all_data "data" fsUndec =
      LoadResult.raised (PyError.unicodeDecodeError "data/heroes.json") :=
  by decide

/-- C6 amended: knowledge-base construction never throws for a MISSING
roster file, normalized-roster file or strategy directory, or for a file
that decodes as text but fails JSON parsing: each such condition is
absorbed locally with an emitted diagnostic, the corresponding
collection is substituted with an empty one, loading completes, and with
the strategy directory missing every subsequent query returns empty
results.  However a file whose bytes are not valid UTF-8 raises an
uncaught `UnicodeDecodeError` (only `FileNotFoundError` and
`json.JSONDecodeError` are caught) and halts loading. -/
theorem claim_C6_amended (dp : String) (fs : FileSystem) :
    ((fs.heroes_json ≠ FileContent.undecodable →
      fs.normalized_heroes_json ≠ FileContent.undecodable →
      (∀ files fn, fs.howdoiplay_dir = some files →
        (fn, FileContent.undecodable) ∈ files →
        pyEndsWith fn ".json" = false) →
      ∃ res, load_all_data dp fs = LoadResult.ok res)) ∧
    (∀ dm log, load_all_data dp fs = LoadResult.ok (dm, log) →
      ((fs.heroes_json = .missing ∨ fs.heroes_json = .malformed) →
        dm.heroes = []) ∧
      ((fs.normalized_heroes_json = .missing ∨
          fs.normalized_heroes_json = .malformed) →
        dm.normalized_heroes = [] ∧ dm.hero_name_map = []) ∧
      (fs.heroes_json = .missing →
        ("Error: " ++ pathJoin dp "heroes.json" ++ " not found.") ∈ log) ∧
      (fs.heroes_json = .malformed →
        ("Error: Could not decode JSON from " ++
          pathJoin dp "heroes.json" ++ ".") ∈ log) ∧
      (fs.normalized_heroes_json = .missing →
        ("Error: " ++ pathJoin dp "normalized_heroes.json" ++
          " not found.") ∈ log) ∧
      (fs.normalized_heroes_json = .malformed →
        ("Error: Could not decode JSON from " ++
          pathJoin dp "normalized_heroes.json" ++ ".") ∈ log) ∧
      (fs.howdoiplay_dir = none →
        dm.hero_strategies = [] ∧
        ∀ hn enemies,
          get_strategic_tips dm hn = [] ∧
          get_item_suggestions dm enemies = [] ∧
          get_counter_tips dm enemies = [])) := by
  constructor
  · intro hH hN hS
    obtain ⟨r1, h1⟩ := load_json_ok_of_ne dp "heroes.json"
      fs.heroes_json hH
    obtain ⟨r2, h2⟩ := load_json_ok_of_ne dp "normalized_heroes.json"
      fs.normalized_heroes_json hN
    obtain ⟨strat, h3⟩ : ∃ s, loadStrategiesDir dp fs.howdoiplay_dir =
        LoadResult.ok s := by
      cases hd : fs.howdoiplay_dir with
      | none => exact ⟨([], []), rfl⟩
      | some files =>
        obtain ⟨res, hres⟩ := stratList_ok_of_no_undecodable dp files
          ([], []) (fun fn hm => hS files fn hd hm)
        exact ⟨res, by simp [loadStrategiesDir, hres]⟩
    exact ⟨_, load_all_data_ok_of dp fs r1 r2 strat h1 h2 h3⟩
  · intro dm log hok
    refine ⟨load_ok_heroes_empty dp fs dm log hok,
      load_ok_normalized_empty dp fs dm log hok,
      load_ok_log_heroes_missing dp fs dm log hok,
      load_ok_log_heroes_malformed dp fs dm log hok,
      load_ok_log_normalized_missing dp fs dm log hok,
      load_ok_log_normalized_malformed dp fs dm log hok, ?_⟩
    intro h
    have hs := load_ok_strategies_none dp fs dm log hok h
    exact ⟨hs, fun hn enemies =>
      ⟨get_strategic_tips_empty_of_strategies_nil _ hs hn,
       get_item_suggestions_empty_of_blob _
         (heroBlob_none_of_strategies_nil _ hs) enemies,
       get_counter_tips_empty_of_blob _
         (heroBlob_none_of_strategies_nil _ hs) enemies⟩⟩

/-- C6 witness: loading with both roster files missing and no strategy
directory completes with empty collections, logged diagnostics and empty
query results. -/
theorem claim_C6_witness :
    (∃ res, load_all_data "data" fsEmpty = LoadResult.ok res) ∧
    load_all_data "data" fsEmpty = LoadResult.ok (dmEmpty, logEmpty) ∧
    dmEmpty.heroes = [] ∧
    dmEmpty.hero_name_map = [] ∧
    ("Error: " ++ pathJoin "data" "heroes.json" ++ " not found.") ∈
      logEmpty ∧
    dmEmpty.hero_strategies = [] ∧
    get_strategic_tips dmEmpty "Axe" = [] ∧
    get_item_suggestions dmEmpty ["Axe"] = [] ∧
    get_counter_tips dmEmpty ["Axe"] = [] :=
  ⟨(claim_C6_amended "data" fsEmpty).1 (by decide) (by decide)
      (fun files fn h => by simp [fsEmpty] at h),
   by decide,
   ((claim_C6_amended "data" fsEmpty).2 dmEmpty logEmpty (by decide)).1
     (Or.inl rfl),
   (((claim_C6_amended "data" fsEmpty).2 dmEmpty logEmpty
       (by decide)).2.1 (Or.inl rfl)).2,
   ((claim_C6_amended "data" fsEmpty).2 dmEmpty logEmpty
       (by decide)).2.2.1 rfl,
   (((claim_C6_amended "data" fsEmpty).2 dmEmpty logEmpty
       (by decide)).2.2.2.2.2.2 rfl).1,
   ((((claim_C6_amended "data" fsEmpty).2 dmEmpty logEmpty
       (by decide)).2.2.2.2.2.2 rfl).2 "Axe" ["Axe"]).1,
   ((((claim_C6_amended "data" fsEmpty).2 dmEmpty logEmpty
       (by decide)).2.2.2.2.2.2 rfl).2 "Axe" ["Axe"]).2.1,
   ((((claim_C6_amended "data" fsEmpty).2 dmEmpty logEmpty
       (by decide)).2.2.2.2.2.2 rfl).2 "Axe" ["Axe"]).2.2⟩

/-- C7 counterexample: three failures of the original claim on concrete
directories.  The recognized well-formed file `a.json.json` (stem
`a.json`) is stored under `a`, because `filename.replace(".json", "")`
removes every occurrence of the extension string; the well-formed file
`empty.json` whose parsed value is falsy (`{}`) is not inserted at all;
and a recognized file whose bytes are not valid UTF-8 raises an uncaught
`UnicodeDecodeError` that aborts the whole load instead of being
skipped. -/
theorem claim_C7_counterexample :
    pyEndsWith "a.json.json" ".json" = true ∧
    dictLookup (loadedStrategies (load_all_data "data" fsStrat))
      "a.json" = none ∧
    dictLookup (loadedStrategies (load_all_data "data" fsStrat)) "a" =
      some docT ∧
    pyEndsWith "empty.json" ".json" = true ∧
    dictLookup (loadedStrategies (load_all_data "data" fsStrat))
      "empty" = none ∧
    loadCompleted (load_all_data "data" fsStrat) = true ∧
    load_all_data "data" fsFatal = LoadResult.raised
      (PyError.unicodeDecodeError "data/howdoiplay_json/u.json") := by
  refine ⟨by decide, by decide, by decide, by decide, by decide,
    by decide, by decide⟩

/-- C7 amended: for every file in the strategy directory whose name ends
in ".json": when the load completes, the key under which well-formed
truthy content is stored is the file name with every occurrence of the
string ".json" removed (equal to the base name minus the extension
exactly when ".json" occurs only as the final extension), every such
file has its key present and every stored key originates from such a
file; a file that decodes but is not valid JSON is skipped with a logged
diagnostic; a well-formed file whose parsed value is falsy is silently
not inserted; and a recognized file whose bytes are not valid UTF-8
raises an uncaught `UnicodeDecodeError` that aborts the entire load. -/
theorem claim_C7_amended (dp : String) (fs : FileSystem)
    (files : List (String × FileContent StrategyJson))
    (hdir : fs.howdoiplay_dir = some files) :
    (∀ dm log, load_all_data dp fs = LoadResult.ok (dm, log) →
      (∀ fn doc,
        (fn, FileContent.wellFormed (StrategyJson.doc doc)) ∈ files →
        pyEndsWith fn ".json" = true →
        (dictLookup dm.hero_strategies
          (pyReplace fn ".json" "")).isSome = true) ∧
      (∀ k, (dictLookup dm.hero_strategies k).isSome = true →
        ∃ fn doc,
          (fn, FileContent.wellFormed (StrategyJson.doc doc)) ∈ files ∧
          pyEndsWith fn ".json" = true ∧ k = pyReplace fn ".json" "") ∧
      (∀ fn, (fn, FileContent.malformed) ∈ files →
        pyEndsWith fn ".json" = true →
        ("Error: Could not decode JSON from " ++
          pathJoin dp (pathJoin "howdoiplay_json" fn) ++ ".") ∈ log)) ∧
    (∀ fn, (fn, FileContent.undecodable) ∈ files →
      pyEndsWith fn ".json" = true →
      ∃ e, load_all_data dp fs = LoadResult.raised e) := by
  constructor
  · intro dm log hok
    obtain ⟨strat, hlist, hstrat, hlog⟩ :=
      load_ok_strategies_some dp fs files dm log hok hdir
    refine ⟨?_, ?_, ?_⟩
    · intro fn doc hm he
      rw [hstrat]
      exact stratList_mem dp files ([], []) fn doc strat hlist hm he
    · intro k hk
      rw [hstrat] at hk
      rcases stratList_key_origin dp files ([], []) k strat hlist hk with
        h0 | hex
      · simp [dictLookup] at h0
      · exact hex
    · intro fn hm he
      exact hlog _
        (stratList_malformed_log dp files ([], []) fn strat hlist hm he)
  · intro fn hm he
    obtain ⟨e0, hraise⟩ :=
      stratList_raises_of_undecodable dp files ([], []) fn hm he
    cases h1 : load_json dp "heroes.json" fs.heroes_json with
    | raised e => exact ⟨e, by simp [load_all_data, h1]⟩
    | ok r1 =>
      cases h2 : load_json dp "normalized_heroes.json"
          fs.normalized_heroes_json with
      | raised e => exact ⟨e, by simp [load_all_data, h1, h2]⟩
      | ok r2 =>
        exact ⟨e0, by
          simp [load_all_data, h1, h2, loadStrategiesDir, hdir, hraise]⟩

/-- C7 witness: on the fixture directory the load completes, the
well-formed file's computed key is present, the malformed file's
diagnostic is logged, and the fixture with an undecodable recognized
file makes the load raise. -/
theorem claim_C7_witness :
    load_all_data "data" fsStrat = LoadResult.ok (dmStrat, logStrat) ∧
    (dictLookup dmStrat.hero_strategies
      (pyReplace "a.json.json" ".json" "")).isSome = true ∧
    ("Error: Could not decode JSON from data/howdoiplay_json/bad.json.")
      ∈ logStrat ∧
    (∃ e, load_all_data "data" fsFatal = LoadResult.raised e) :=
  ⟨by decide,
   ((claim_C7_amended "data" fsStrat _ rfl).1 dmStrat logStrat
       (by decide)).1 "a.json.json" docT (by decide) (by decide),
   ((claim_C7_amended "data" fsStrat _ rfl).1 dmStrat logStrat
       (by decide)).2.2 "bad.json" (by decide) (by decide),
   (claim_C7_amended "data" fsFatal _ rfl).2 "u.json" (by decide)
     (by decide)⟩


/-- C8: each query operation is deterministic — running the same
operation twice in sequence on the state left by the first call yields an
identical result, there being no mutable state for a call to change (the
methods assign no attribute, which the stateful renderings reflect). -/
theorem claim_C8 (dm : DataManager) (enemies : List String)
    (hero : String) :
    (get_item_suggestions_run
        ((get_item_suggestions_run dm enemies).2) enemies).1 =
      (get_item_suggestions_run dm enemies).1 ∧
    (get_strategic_tips_run ((get_strategic_tips_run dm hero).2) hero).1 =
      (get_strategic_tips_run dm hero).1 ∧
    (get_counter_tips_run
        ((get_counter_tips_run dm enemies).2) enemies).1 =
      (get_counter_tips_run dm enemies).1 :=
  ⟨rfl, rfl, rfl⟩

/-- C9: no query operation mutates the knowledge base — after each call
the hero list, the name-to-id lookup and the id-to-strategy mapping of
the `DataManager` are exactly what they were before. -/
theorem claim_C9 (dm : DataManager) (enemies : List String)
    (hero : String) :
    ((get_item_suggestions_run dm enemies).2.heroes = dm.heroes ∧
     (get_item_suggestions_run dm enemies).2.hero_name_map =
       dm.hero_name_map ∧
     (get_item_suggestions_run dm enemies).2.hero_strategies =
       dm.hero_strategies) ∧
    ((get_strategic_tips_run dm hero).2.heroes = dm.heroes ∧
     (get_strategic_tips_run dm hero).2.hero_name_map =
       dm.hero_name_map ∧
     (get_strategic_tips_run dm hero).2.hero_strategies =
       dm.hero_strategies) ∧
    ((get_counter_tips_run dm enemies).2.heroes = dm.heroes ∧
     (get_counter_tips_run dm enemies).2.hero_name_map =
       dm.hero_name_map ∧
     (get_counter_tips_run dm enemies).2.hero_strategies =
       dm.hero_strategies) :=
  ⟨⟨rfl, rfl, rfl⟩, ⟨rfl, rfl, rfl⟩, ⟨rfl, rfl, rfl⟩⟩

/-- C10: `get_item_suggestions` is invariant under appending a duplicate
of a name already in the opponent list — the output mapping is identical,
keys, value lists and order included. -/
theorem claim_C10 (dm : DataManager) (enemies : List String)
    (name : String) (hmem : name ∈ enemies) :
    get_item_suggestions dm (enemies ++ [name]) =
      get_item_suggestions dm enemies := by
  unfold get_item_suggestions
  rw [List.foldl_append, List.foldl_cons, List.foldl_nil]
  exact processHero_already dm enemies name hmem

/-- C10 witness: duplicating the only opponent leaves the output
unchanged. -/
theorem claim_C10_witness :
    ("Hero A" : String) ∈ ["Hero A"] ∧
    get_item_suggestions dmSpec (["Hero A"] ++ ["Hero A"]) =
      get_item_suggestions dmSpec ["Hero A"] :=
  ⟨by decide, claim_C10 dmSpec ["Hero A"] "Hero A" (by decide)⟩

end DraftAnalyzer
